import Mathlib

/-! Transaction validator of the NeoVM side chain mempool.

A shallow embedding of `mempool/validator.go`.

* Go `error` results are `Option String`: `none` is `nil`, `some msg` is
  `errors.New(msg)`.
* `int64`/`Fixed64` values are integers; additions are wrapped to 64 bits by
  `wrap64`, `byte` subtraction is taken modulo 256.
* A run-time panic (integer division by zero) is the outer `none` of an
  `Option`.
* Constants that live in imported packages (`side.MinPrecision`,
  `side.MaxPrecision`, the address prefixes) are fields of `Host`.
* The routines of other packages that the signature check calls are the
  fields of `Collaborators`; a routine that works in place on a slice returns
  the contents of the slice after the call, and `checkTransactionSignature`
  returns the transaction as it stands afterwards next to the `error`.
* The three checks are given a second time as functions of the transaction
  pointer (`TxM`): the transaction is the state, the routines that receive
  the pointer may write it, and what a check leaves behind is read off the
  state. `checkTransactionPayloadCalls` writes down the calls of
  `checkAmountPrecise`, and `pairedForRun` what is handed to `RunPrograms`.
* The sorting routines and the registry of the host chain are not part of
  `validator.go`; where a claim needs them they are modelled from the spec.
* The one `float64` computation, `float64(totalReward) * 0.3`, is carried out
  exactly on integers: a `float64` is a 53-bit significand times a power of
  two, so each operation is the exact result rounded to 53 significant bits,
  to nearest with ties to even (`roundTo53`).
-/

namespace Mempool

/-! ## Machine integers -/

/-- The type `common.Fixed64` is a Go `int64`. -/
abbrev Fixed64 := Int

/-- Membership in the range of a signed 64-bit integer. -/
def isInt64 (x : Int) : Prop := -2 ^ 63 ≤ x ∧ x < 2 ^ 63

instance (x : Int) : Decidable (isInt64 x) := by
  unfold isInt64; exact inferInstance

/-- Two's-complement wrap-around of an integer to the `int64` range, the result
of Go's `int64` addition. -/
def wrap64 (x : Int) : Int := (x + 2 ^ 63) % 2 ^ 64 - 2 ^ 63

/-- Go's `byte - byte`: subtraction modulo 256. -/
def byteSub (a b : Nat) : Nat := (a + 256 - b % 256) % 256

/-- Go's `a % b` on `int64`: the remainder truncated toward zero, and a
run-time panic (`none`) when the divisor is zero. -/
def goMod (a b : Int) : Option Int :=
  if b = 0 then none else some (a.tmod b)

/-! ## Data model -/

/-- The type `common.Uint256`, a `[32]byte` array. -/
structure Uint256 where
  bytes : List Nat
  size : bytes.length = 32
  isByte : ∀ b ∈ bytes, b < 256
deriving DecidableEq

/-- The type `common.Uint168`, a `[21]byte` array. -/
structure Uint168 where
  bytes : List Nat
  size : bytes.length = 21
  isByte : ∀ b ∈ bytes, b < 256
deriving DecidableEq

/-- The zero value `common.Uint168{}`. -/
def Uint168.empty : Uint168 :=
  ⟨List.replicate 21 0, by decide, by decide⟩

/-- The element `programHash[0]`. -/
def Uint168.byte0 (h : Uint168) : Nat :=
  h.bytes.get ⟨0, by have := h.size; omega⟩

/-- Constants and conversions the validator takes from outside its own file:
the precision bounds of the host chain, the address-type prefix bytes, and the
`int64` a platform yields when it converts a `float64` power of ten that does
not fit (Go leaves that result implementation-dependent). -/
structure Host where
  MinPrecision : Nat
  MaxPrecision : Nat
  PrefixStandard : Nat
  PrefixMultisig : Nat
  PrefixCrossChain : Nat
  PrefixRegisterId : Nat
  PrefixSmartContract : Nat
  pow10Overflow : Nat → Int

/-- The type `side.Asset`. -/
structure Asset where
  Name : String
  Description : String
  Precision : Nat
  AssetType : Nat
  RecordType : Nat
deriving DecidableEq

/-- The type `side.PayloadRegisterAsset`. -/
structure PayloadRegisterAsset where
  Asset : Asset
  Amount : Fixed64
  Controller : Uint168
deriving DecidableEq

/-- The dynamic type held by the `Payload` interface of a transaction. The
contents of the variants the validator does not inspect are kept as
uninterpreted bytes; `Other` stands for any payload type outside the eight
named in the type switch. -/
inductive Payload where
  | RegisterAsset (pld : PayloadRegisterAsset)
  | TransferAsset (content : List Nat)
  | Record (content : List Nat)
  | CoinBase (content : List Nat)
  | RechargeToSideChain (content : List Nat)
  | TransferCrossChainAsset (content : List Nat)
  | Deploy (content : List Nat)
  | Invoke (content : List Nat)
  | Other (typeName : String) (content : List Nat)
deriving DecidableEq

/-- The transaction-type tag `TxType`. -/
inductive TransactionType where
  | CoinBase
  | RegisterAsset
  | TransferAsset
  | Record
  | Deploy
  | RechargeToSideChain
  | TransferCrossChainAsset
  | Invoke
  | Other (tag : Nat)
deriving DecidableEq

/-- The type `side.Input`: the outpoint spent and the sequence number. -/
structure Input where
  ReferTxID : Uint256
  ReferTxOutputIndex : Nat
  Sequence : Nat
deriving DecidableEq

/-- The type `side.Output`. -/
structure Output where
  AssetID : Uint256
  Value : Fixed64
  OutputLock : Nat
  ProgramHash : Uint168
deriving DecidableEq

/-- The type `side.Program`: the code and the parameter of an unlocking
program. -/
structure Program where
  Code : List Nat
  Parameter : List Nat
deriving DecidableEq

/-- The type `side.Transaction`; `Payload = none` is the `nil` interface. -/
structure Transaction where
  TxType : TransactionType
  Payload : Option Payload
  Inputs : List Input
  Outputs : List Output
  Programs : List Program
deriving DecidableEq

/-- The method `IsCoinBaseTx` of the host chain: a test of the type tag. -/
def Transaction.IsCoinBaseTx (txn : Transaction) : Bool :=
  txn.TxType == TransactionType.CoinBase

/-- The fields of the `validator` struct that the sanity checks read. -/
structure validator where
  systemAssetID : Uint256
  foundation : Uint168

/-! ## Error values -/

/-- The error the spec calls `InvalidPrecision`. -/
def errInvalidPrecision : String :=
  "[ID CheckTransactionPayload] Invalide asset Precision."

/-- The error the spec calls `PrecisionMismatch`. -/
def errPrecisionMismatch : String :=
  "[ID CheckTransactionPayload] Invalide asset value,out of precise."

/-- The error the spec calls `UnsupportedPayloadType`. -/
def errUnsupportedPayloadType : String :=
  "[ID CheckTransactionPayload] [txValidator],invalidate transaction payload type."

/-- The error the spec calls `InsufficientOutputs`. -/
def errInsufficientOutputs : String :=
  "[checkTransactionOutput] coinbase output is not enough, at least 2"

/-- The error the spec calls `InvalidAssetID`, as raised for a coinbase. -/
def errInvalidAssetIDCoinbase : String :=
  "[checkTransactionOutput] asset ID in coinbase is invalid"

/-- The error the spec calls `InsufficientFoundationReward`. -/
def errInsufficientFoundationReward : String :=
  "[checkTransactionOutput] Reward to foundation in coinbase < 30%"

/-- The error the spec calls `NoOutputs`. -/
def errNoOutputs : String :=
  "[checkTransactionOutput] transaction has no outputs"

/-- The error the spec calls `InvalidAssetID`, as raised for an ordinary
transaction. -/
def errInvalidAssetID : String :=
  "[checkTransactionOutput] asset ID in output is invalid"

/-- The error the spec calls `InvalidDestination`. -/
def errInvalidDestination : String :=
  "[checkTransactionOutput] output address is invalid"

/-! ## Payload check -/

/-- The expression `int64(math.Pow10(n))` for `0 ≤ n ≤ 255`. Up to `n = 18`
the power of ten is an exact `float64` that fits in an `int64`; from `n = 19`
on the `float64` exceeds the `int64` range and the platform decides. -/
def pow10Int64 (host : Host) (n : Nat) : Int :=
  if n ≤ 18 then 10 ^ n else host.pow10Overflow n

/-- The function `checkAmountPrecise`. -/
def checkAmountPrecise (host : Host) (amount : Fixed64) (precision : Nat)
    (assetPrecision : Nat) : Option Bool :=
  (goMod amount (pow10Int64 host (byteSub assetPrecision precision))).map
    (fun r => r == 0)

/-- The method `checkTransactionPayload`. The outer `none` is a panic, the
inner option the returned `error`. -/
def checkTransactionPayload (host : Host) (txn : Transaction) :
    Option (Option String) :=
  match txn.Payload with
  | some (Payload.RegisterAsset pld) =>
    if pld.Asset.Precision < host.MinPrecision ∨
        pld.Asset.Precision > host.MaxPrecision then
      some (some errInvalidPrecision)
    else
      match checkAmountPrecise host pld.Amount pld.Asset.Precision
          host.MaxPrecision with
      | none => none
      | some false => some (some errPrecisionMismatch)
      | some true => some none
  | some (Payload.TransferAsset _) => some none
  | some (Payload.Record _) => some none
  | some (Payload.CoinBase _) => some none
  | some (Payload.RechargeToSideChain _) => some none
  | some (Payload.TransferCrossChainAsset _) => some none
  | some (Payload.Deploy _) => some none
  | some (Payload.Invoke _) => some none
  | _ => some (some errUnsupportedPayloadType)

/-! ## Output check -/

/-- The function `checkOutputProgramHash`. -/
def checkOutputProgramHash (host : Host) (programHash : Uint168) : Bool :=
  let first := programHash.byte0
  if first = host.PrefixStandard ∨
      first = host.PrefixMultisig ∨
      first = host.PrefixCrossChain ∨
      first = host.PrefixRegisterId ∨
      first = host.PrefixSmartContract ∨
      programHash = Uint168.empty then
    true
  else
    false

/-- The `float64` constant `0.3` is `float03 / 2^54`, the `float64` nearest to
three tenths. -/
def float03 : Nat := 5404319552844595

/-- The number of low bits a natural number loses when it is rounded to the 53
significant bits of a `float64`: the least `s` with `n < 2^(53+s)`, searched
upward from `s` for at most `fuel` steps. -/
def dropBits : Nat → Nat → Nat → Nat
  | 0, s, _ => s
  | fuel + 1, s, n => if n < 2 ^ (53 + s) then s else dropBits fuel (s + 1) n

/-- Rounding to 53 significant bits, to nearest and ties to even: the IEEE 754
rounding of `float64` arithmetic. The low `s` bits are dropped, `q` is the kept
significand and `r` the dropped remainder, compared with half a unit `2^s / 2`.
The 64 search steps find the right `s` for every natural below `2^117`
(`dropBits_spec`), which covers the product of an `int64` magnitude with
`float03`. -/
def roundTo53 (n : Nat) : Nat :=
  let s := dropBits 64 0 n
  let q := n / 2 ^ s
  let r := n % 2 ^ s
  if 2 * r < 2 ^ s then q * 2 ^ s
  else if 2 * r > 2 ^ s then (q + 1) * 2 ^ s
  else if q % 2 = 0 then q * 2 ^ s
  else (q + 1) * 2 ^ s

/-- The expression `common.Fixed64(float64(totalReward) * 0.3)`. The
conversion `float64(totalReward)` rounds the magnitude of the `int64` to 53
bits, giving the integer `m`; the exact product with the constant is
`m * float03 / 2^54`, whose numerator is rounded to 53 bits, giving `p`; the
conversion back to `Fixed64` truncates `p / 2^54` toward zero. Rounding and
truncation are symmetric in the sign, which is put back at the end. Every
magnitude stays below `2^117`, within the range of `roundTo53`, and far from
the overflow and underflow thresholds of `float64`. -/
def thirtyPercent (totalReward : Fixed64) : Fixed64 :=
  let m := roundTo53 totalReward.natAbs
  let p := roundTo53 (m * float03)
  totalReward.sign * ((p / 2 ^ 54 : Nat) : Int)

/-- The loop over the outputs of a coinbase transaction, started with the
accumulators `totalReward` and `foundationReward`: the error of the early
return, or the two accumulators after the last output. -/
def coinbaseOutputs (v : validator) :
    List Output → Fixed64 → Fixed64 → Except String (Fixed64 × Fixed64)
  | [], totalReward, foundationReward => Except.ok (totalReward, foundationReward)
  | output :: rest, totalReward, foundationReward =>
    if output.AssetID ≠ v.systemAssetID then
      Except.error errInvalidAssetIDCoinbase
    else
      coinbaseOutputs v rest (wrap64 (totalReward + output.Value))
        (if output.ProgramHash = v.foundation then
          wrap64 (foundationReward + output.Value)
        else foundationReward)

/-- The loop over the outputs of an ordinary transaction. -/
def ordinaryOutputs (host : Host) (v : validator) : List Output → Option String
  | [] => none
  | output :: rest =>
    if output.AssetID ≠ v.systemAssetID then
      some errInvalidAssetID
    else if checkOutputProgramHash host output.ProgramHash = false then
      some errInvalidDestination
    else
      ordinaryOutputs host v rest

/-- The method `checkTransactionOutput`. -/
def checkTransactionOutput (host : Host) (v : validator) (txn : Transaction) :
    Option String :=
  if txn.IsCoinBaseTx then
    if txn.Outputs.length < 2 then
      some errInsufficientOutputs
    else
      match coinbaseOutputs v txn.Outputs 0 0 with
      | Except.error e => some e
      | Except.ok (totalReward, foundationReward) =>
        if foundationReward < thirtyPercent totalReward then
          some errInsufficientFoundationReward
        else
          none
  else if txn.Outputs.length < 1 then
    some errNoOutputs
  else
    ordinaryOutputs host v txn.Outputs

/-- The sum of the values of all outputs, as an unbounded integer. -/
def totalValue (outs : List Output) : Int :=
  (outs.map (fun o => o.Value)).sum

/-- The sum of the values of the outputs addressed to the foundation program
hash, as an unbounded integer. -/
def foundationValue (v : validator) (outs : List Output) : Int :=
  ((outs.filter (fun o => o.ProgramHash = v.foundation)).map (fun o => o.Value)).sum

/-! ## Signature check -/

/-- The method `IsRechargeToSideChainTx` of the host chain: a test of the type
tag. -/
def Transaction.IsRechargeToSideChainTx (txn : Transaction) : Bool :=
  txn.TxType == TransactionType.RechargeToSideChain

/-- The routines `checkTransactionSignature` calls in other packages:
`spvService.VerifyTransaction`, the method `TxProgramHashes` of the embedded
host validator, `common.SortProgramHashes`, `mempool.SortPrograms` and
`mempool.RunPrograms`. An `error` result is an `Option String`, the pair
`(hashes, err)` an `Except`. The two sorting routines work in place on the
slice they are given and so return its contents after the call; the other
routines only read their arguments. -/
structure Collaborators where
  VerifyTransaction : Transaction → Option String
  TxProgramHashes : Transaction → Except String (List Uint168)
  SortProgramHashes : List Uint168 → List Uint168
  SortPrograms : List Program → List Program × Option String
  RunPrograms : Transaction → List Uint168 → List Program → Option String

/-- The error the spec calls `InvalidRechargeProof`, wrapping the cause. -/
def errInvalidRechargeProof (cause : String) : String :=
  "[ID checkTransactionSignature] Invalide recharge to side chain tx: " ++ cause

/-- The error the spec calls `ProgramHashDerivationFailed`, wrapping the
cause. -/
def errProgramHashDerivationFailed (cause : String) : String :=
  "[ID checkTransactionSignature] Get program hashes error:" ++ cause

/-- The error the spec calls `ProgramSortFailed`, wrapping the cause. -/
def errProgramSortFailed (cause : String) : String :=
  "[ID checkTransactionSignature] Sort program hashes error:" ++ cause

/-- The error the spec calls `ProgramExecutionFailed`, wrapping the cause. -/
def errProgramExecutionFailed (cause : String) : String :=
  "[ID checkTransactionSignature] Run program error:" ++ cause

/-- The transaction whose `Programs` slice holds `programs` and whose other
fields are those of `txn`. -/
def Transaction.withPrograms (txn : Transaction) (programs : List Program) :
    Transaction :=
  ⟨txn.TxType, txn.Payload, txn.Inputs, txn.Outputs, programs⟩

/-- The method `checkTransactionSignature`: the returned `error`, and the
transaction as it stands after the call. `SortPrograms` is handed the slice
`txn.Programs` itself, so what it leaves there is what the transaction holds
afterwards and what `RunPrograms` is given. -/
def checkTransactionSignature (c : Collaborators) (txn : Transaction) :
    Option String × Transaction :=
  if txn.IsRechargeToSideChainTx then
    match c.VerifyTransaction txn with
    | some err => (some (errInvalidRechargeProof err), txn)
    | none => (none, txn)
  else
    match c.TxProgramHashes txn with
    | Except.error err => (some (errProgramHashDerivationFailed err), txn)
    | Except.ok hashes =>
      let sortedHashes := c.SortProgramHashes hashes
      let sorted := c.SortPrograms txn.Programs
      let txnSorted := txn.withPrograms sorted.1
      match sorted.2 with
      | some err => (some (errProgramSortFailed err), txnSorted)
      | none =>
        match c.RunPrograms txnSorted sortedHashes txnSorted.Programs with
        | some err => (some (errProgramExecutionFailed err), txnSorted)
        | none => (none, txnSorted)

/-- The transaction `txn` with its programs submitted in reversed order. -/
def Transaction.reversePrograms (txn : Transaction) : Transaction :=
  txn.withPrograms txn.Programs.reverse

/-- The sorted hashes and the sorted programs that `checkTransactionSignature`
hands to `RunPrograms`, when it gets as far as that call. -/
def pairedForRun (c : Collaborators) (txn : Transaction) :
    Option (List Uint168 × List Program) :=
  if txn.IsRechargeToSideChainTx then none
  else
    match c.TxProgramHashes txn with
    | Except.error _ => none
    | Except.ok hashes =>
      match (c.SortPrograms txn.Programs).2 with
      | some _ => none
      | none => some (c.SortProgramHashes hashes, (c.SortPrograms txn.Programs).1)

/-! ## The sorting routines, from the spec -/

/-- The sort key of a program hash: its bytes, compared lexicographically; a
program without hash has the empty key. -/
def hashKey : Option Uint168 → List Nat
  | some h => h.bytes
  | none => []

/-- Modelled from the spec: the canonical total order in which the host sorts
hashes (`Uint168.Compare` of the utility package is not under `src/`), which is
byte-lexicographic on the hash representation. -/
def hashLe (a b : Uint168) : Prop := a.bytes ≤ b.bytes

instance : DecidableRel hashLe := fun a b => by
  unfold hashLe; exact inferInstance

/-- Modelled from the spec: `common.SortProgramHashes` of the utility package,
not under `src/`, which sorts the required program hashes by the canonical
order. -/
def SortProgramHashes (hashes : List Uint168) : List Uint168 :=
  hashes.insertionSort hashLe

/-- The order of two programs by their associated hashes under the hash
function `toCodeHash`. -/
def programLe (toCodeHash : List Nat → Option Uint168) (p q : Program) : Prop :=
  hashKey (toCodeHash p.Code) ≤ hashKey (toCodeHash q.Code)

instance (toCodeHash : List Nat → Option Uint168) :
    DecidableRel (programLe toCodeHash) := fun p q => by
  unfold programLe; exact inferInstance

/-- The cause reported when a program has no hash. -/
def errInvalidProgramCode : String := "invalid program code"

/-- Modelled from the spec: `mempool.SortPrograms` of the host chain, not under
`src/`, which sorts the supplied programs by the canonical order over their
associated hash and fails on a malformed program. `toCodeHash` is the hash
function of program code, absent for malformed code. On failure the slice is
taken to be left as it was. -/
def SortPrograms (toCodeHash : List Nat → Option Uint168)
    (programs : List Program) : List Program × Option String :=
  if programs.all (fun p => (toCodeHash p.Code).isSome) then
    (programs.insertionSort (programLe toCodeHash), none)
  else
    (programs, some errInvalidProgramCode)

/-! ## Registry -/

/-- The names under which check functions are registered
(`mempool.FuncNames`). -/
inductive FuncName where
  | CheckTransactionOutput
  | CheckTransactionPayload
  | CheckTransactionSignature
  | Other (name : String)
deriving DecidableEq

/-- A registered check: from the transaction to the returned `error` and the
transaction after the call, or `none` when the check panics. -/
abbrev CheckFunc := Transaction → Option (Option String × Transaction)

/-- A check function with the name it is registered under. -/
structure ValidateFunc where
  Name : FuncName
  Function : CheckFunc

/-- Modelled from the spec: the validation registry `mempool.Validator` of the
host chain, not under `src/`, which holds the sanity functions and the context
functions in registration order. -/
structure Registry where
  sanityFuncs : List ValidateFunc
  contextFuncs : List ValidateFunc

/-- Modelled from the spec: `mempool.NewValidator` of the host chain, not under
`src/`: a registry with no implicit behaviour, in which nothing is registered
yet. -/
def baseValidator : Registry := ⟨[], []⟩

/-- Modelled from the spec: `RegisterSanityFunc` of the host chain, not under
`src/`, which adds a sanity function after those already registered. -/
def RegisterSanityFunc (r : Registry) (name : FuncName) (function : CheckFunc) :
    Registry :=
  ⟨r.sanityFuncs ++ [⟨name, function⟩], r.contextFuncs⟩

/-- Modelled from the spec: `RegisterContextFunc` of the host chain, not under
`src/`, which adds a context function after those already registered. -/
def RegisterContextFunc (r : Registry) (name : FuncName) (function : CheckFunc) :
    Registry :=
  ⟨r.sanityFuncs, r.contextFuncs ++ [⟨name, function⟩]⟩

/-- Modelled from the spec: one phase of validation, not under `src/`: the
functions run in order on the transaction as the previous one left it, and the
first error stops the phase. The result lists the names of the functions that
ran, the error, and the transaction afterwards; `none` is a panic. -/
def runFuncs : List ValidateFunc → Transaction →
    Option (List FuncName × Option String × Transaction)
  | [], txn => some ([], none, txn)
  | f :: rest, txn =>
    match f.Function txn with
    | none => none
    | some (some err, txn1) => some ([f.Name], some err, txn1)
    | some (none, txn1) =>
      match runFuncs rest txn1 with
      | none => none
      | some (ran, err, txn2) => some (f.Name :: ran, err, txn2)

/-- Modelled from the spec: the validation the host mempool performs on an
incoming transaction, not under `src/`: all sanity functions, and only if all
of them pass, all context functions. -/
def validateTransaction (r : Registry) (txn : Transaction) :
    Option (List FuncName × Option String × Transaction) :=
  match runFuncs r.sanityFuncs txn with
  | none => none
  | some (ran, some err, txn1) => some (ran, some err, txn1)
  | some (ran, none, txn1) =>
    match runFuncs r.contextFuncs txn1 with
    | none => none
    | some (ran2, err, txn2) => some (ran ++ ran2, err, txn2)

/-- The method value `val.checkTransactionOutput` as a registered check. -/
def outputCheck (host : Host) (v : validator) : CheckFunc :=
  fun txn => some (checkTransactionOutput host v txn, txn)

/-- The method value `val.checkTransactionPayload` as a registered check. -/
def payloadCheck (host : Host) : CheckFunc :=
  fun txn => (checkTransactionPayload host txn).map (fun err => (err, txn))

/-- The method value `val.checkTransactionSignature` as a registered check. -/
def signatureCheck (c : Collaborators) : CheckFunc :=
  fun txn => some (checkTransactionSignature c txn)

/-- The fields of `mempool.Config` that `NewValidator` reads: the asset
identifier and the foundation address of the chain parameters. The proof
service and the host validator are the `Collaborators`. -/
structure Config where
  ElaAssetId : Uint256
  Foundation : Uint168

/-- The function `NewValidator`. -/
def NewValidator (host : Host) (cfg : Config) (c : Collaborators) : Registry :=
  let val : validator := ⟨cfg.ElaAssetId, cfg.Foundation⟩
  RegisterContextFunc
    (RegisterSanityFunc
      (RegisterSanityFunc baseValidator FuncName.CheckTransactionOutput
        (outputCheck host val))
      FuncName.CheckTransactionPayload (payloadCheck host))
    FuncName.CheckTransactionSignature (signatureCheck c)

/-! ## The checks as functions of the transaction pointer -/

/-- A Go function that is handed the pointer to the transaction: it may read
and write the transaction (the state) and may panic (`none`). -/
abbrev TxM := StateT Transaction Option

/-- The method `checkTransactionPayload`, on the transaction behind the
pointer. -/
def checkTransactionPayloadM (host : Host) : TxM (Option String) := do
  let txn ← get
  match txn.Payload with
  | some (Payload.RegisterAsset pld) =>
    if pld.Asset.Precision < host.MinPrecision ∨
        pld.Asset.Precision > host.MaxPrecision then
      pure (some errInvalidPrecision)
    else
      match checkAmountPrecise host pld.Amount pld.Asset.Precision
          host.MaxPrecision with
      | none => failure
      | some false => pure (some errPrecisionMismatch)
      | some true => pure none
  | some (Payload.TransferAsset _) => pure none
  | some (Payload.Record _) => pure none
  | some (Payload.CoinBase _) => pure none
  | some (Payload.RechargeToSideChain _) => pure none
  | some (Payload.TransferCrossChainAsset _) => pure none
  | some (Payload.Deploy _) => pure none
  | some (Payload.Invoke _) => pure none
  | _ => pure (some errUnsupportedPayloadType)

/-- The method `checkTransactionOutput`, on the transaction behind the
pointer. -/
def checkTransactionOutputM (host : Host) (v : validator) : TxM (Option String) := do
  let txn ← get
  if txn.IsCoinBaseTx then
    if txn.Outputs.length < 2 then
      pure (some errInsufficientOutputs)
    else
      match coinbaseOutputs v txn.Outputs 0 0 with
      | Except.error e => pure (some e)
      | Except.ok (totalReward, foundationReward) =>
        if foundationReward < thirtyPercent totalReward then
          pure (some errInsufficientFoundationReward)
        else
          pure none
  else if txn.Outputs.length < 1 then
    pure (some errNoOutputs)
  else
    pure (ordinaryOutputs host v txn.Outputs)

/-- The routines `checkTransactionSignature` calls, with the access Go gives
them: `VerifyTransaction`, `TxProgramHashes` and `RunPrograms` are handed the
pointer to the transaction and so may write any of its fields;
`SortPrograms` is handed the slice `txn.Programs` and so may write its
elements, returned here as the slice after the call. -/
structure Routines where
  VerifyTransaction : TxM (Option String)
  TxProgramHashes : TxM (Except String (List Uint168))
  SortProgramHashes : List Uint168 → List Uint168
  SortPrograms : List Program → List Program × Option String
  RunPrograms : List Uint168 → TxM (Option String)

/-- The method `checkTransactionSignature`, on the transaction behind the
pointer. The only write of the method itself is the one `SortPrograms` makes
through the slice `txn.Programs`; `RunPrograms` is given the pointer and the
same slice, which it finds in the transaction. -/
def checkTransactionSignatureM (w : Routines) : TxM (Option String) := do
  let txn ← get
  if txn.IsRechargeToSideChainTx then
    match ← w.VerifyTransaction with
    | some err => pure (some (errInvalidRechargeProof err))
    | none => pure none
  else
    match ← w.TxProgramHashes with
    | Except.error err => pure (some (errProgramHashDerivationFailed err))
    | Except.ok hashes =>
      let sortedHashes := w.SortProgramHashes hashes
      let sorted := w.SortPrograms (← get).Programs
      modify (fun t => t.withPrograms sorted.1)
      match sorted.2 with
      | some err => pure (some (errProgramSortFailed err))
      | none =>
        match ← w.RunPrograms sortedHashes with
        | some err => pure (some (errProgramExecutionFailed err))
        | none => pure none

/-- The routines that only read the transaction, as `Collaborators` describes
them, with the access Go gives them. -/
def Collaborators.routines (c : Collaborators) : Routines :=
  ⟨do let t ← get; pure (c.VerifyTransaction t),
    do let t ← get; pure (c.TxProgramHashes t),
    c.SortProgramHashes,
    c.SortPrograms,
    fun hashes => do let t ← get; pure (c.RunPrograms t hashes t.Programs)⟩

/-- The transaction `after` has the tag, payload, inputs and outputs of
`before`. -/
def sameButPrograms (after before : Transaction) : Prop :=
  after.TxType = before.TxType ∧ after.Payload = before.Payload ∧
    after.Inputs = before.Inputs ∧ after.Outputs = before.Outputs

/-- A call of `checkAmountPrecise`, with its arguments written down next to
its result. -/
def checkAmountPreciseCall (host : Host) (amount : Fixed64) (precision : Nat)
    (assetPrecision : Nat) : List (Fixed64 × Nat × Nat) × Option Bool :=
  ([(amount, precision, assetPrecision)],
    checkAmountPrecise host amount precision assetPrecision)

/-- The method `checkTransactionPayload` with the calls of
`checkAmountPrecise` it makes written down: the arguments of every call, and
the result of the method. -/
def checkTransactionPayloadCalls (host : Host) (txn : Transaction) :
    List (Fixed64 × Nat × Nat) × Option (Option String) :=
  match txn.Payload with
  | some (Payload.RegisterAsset pld) =>
    if pld.Asset.Precision < host.MinPrecision ∨
        pld.Asset.Precision > host.MaxPrecision then
      ([], some (some errInvalidPrecision))
    else
      match checkAmountPreciseCall host pld.Amount pld.Asset.Precision
          host.MaxPrecision with
      | (calls, none) => (calls, none)
      | (calls, some false) => (calls, some (some errPrecisionMismatch))
      | (calls, some true) => (calls, some none)
  | some (Payload.TransferAsset _) => ([], some none)
  | some (Payload.Record _) => ([], some none)
  | some (Payload.CoinBase _) => ([], some none)
  | some (Payload.RechargeToSideChain _) => ([], some none)
  | some (Payload.TransferCrossChainAsset _) => ([], some none)
  | some (Payload.Deploy _) => ([], some none)
  | some (Payload.Invoke _) => ([], some none)
  | _ => ([], some (some errUnsupportedPayloadType))

/-! ## Concrete values used in examples -/

/-- A host with the constants of the deployed chain and the out-of-range
conversion of an amd64 processor, which yields the smallest `int64`. -/
def amd64Host : Host :=
  ⟨0, 8, 0x21, 0x12, 0x4B, 0x67, 0x1C, fun _ => -2 ^ 63⟩

/-- An asset identifier with every byte equal to `b % 256`. -/
def assetOf (b : Nat) : Uint256 :=
  ⟨List.replicate 32 (b % 256), by simp, by
    intro x hx
    rw [List.eq_of_mem_replicate hx]
    exact Nat.mod_lt _ (by decide)⟩

/-- A program hash with first byte `b % 256` and all other bytes one. -/
def hashOf (b : Nat) : Uint168 :=
  ⟨(b % 256) :: List.replicate 20 1, by simp, by
    intro x hx
    rcases List.mem_cons.mp hx with h | h
    · rw [h]; exact Nat.mod_lt _ (by decide)
    · rw [List.eq_of_mem_replicate h]; decide⟩

/-- An output of asset `assetOf a`, paying `value` to `hashOf p`. -/
def outputOf (a : Nat) (value : Fixed64) (p : Nat) : Output :=
  ⟨assetOf a, value, 0, hashOf p⟩

/-- A validator whose system asset is `assetOf 1` and whose foundation address
is `hashOf 0x21`. -/
def exampleValidator : validator := ⟨assetOf 1, hashOf 0x21⟩

/-- A transaction with the given tag, payload and outputs, and neither inputs
nor programs. -/
def txOf (ty : TransactionType) (pld : Option Payload) (outs : List Output) :
    Transaction :=
  ⟨ty, pld, [], outs, []⟩

/-- A stand-in for the hash of program code: code starting with byte `b` has
the hash `hashOf b`, and empty code is malformed. -/
def exampleCodeHash : List Nat → Option Uint168
  | [] => none
  | b :: _ => some (hashOf b)

/-- Stand-ins for the collaborators: the proof verifier accepts a transaction
that has inputs, each input requires the hash `hashOf` of its output index, the
sorting routines are those of the spec, and running the programs succeeds when
each sorted program has the hash it is paired with. -/
def exampleCollaborators : Collaborators :=
  ⟨fun txn => if txn.Inputs = [] then some "no proof" else none,
    fun txn =>
      if txn.Inputs = [] then Except.error "no inputs"
      else Except.ok (txn.Inputs.map (fun i => hashOf i.ReferTxOutputIndex)),
    SortProgramHashes,
    SortPrograms exampleCodeHash,
    fun _ hashes programs =>
      if hashes.map some = programs.map (fun p => exampleCodeHash p.Code) then none
      else some "hash mismatch"⟩

/-- An input spending output `i` of the transaction with identifier
`assetOf 9`. -/
def inputOf (i : Nat) : Input := ⟨assetOf 9, i, 0⟩

/-- A transaction with the given tag, inputs and programs, no payload and no
outputs. -/
def signedTx (ty : TransactionType) (ins : List Input) (progs : List Program) :
    Transaction :=
  ⟨ty, none, ins, [], progs⟩

end Mempool

namespace Mempool

/-! ## Arithmetic of the precision check -/

theorem byteSub_of_le (a b : Nat) (hle : b ≤ a) (hd : a - b ≤ 18) :
    byteSub a b = a - b := by
  unfold byteSub
  omega

theorem pow10Int64_small (host : Host) (n : Nat) (hn : n ≤ 18) :
    pow10Int64 host n = 10 ^ n := by
  simp [pow10Int64, hn]

theorem tmod_eq_zero_iff_emod (a b : Int) : a.tmod b = 0 ↔ a % b = 0 := by
  constructor
  · intro h
    exact Int.emod_eq_zero_of_dvd (Int.dvd_of_tmod_eq_zero h)
  · intro h
    exact Int.tmod_eq_zero_of_dvd (Int.dvd_of_emod_eq_zero h)

theorem checkAmountPrecise_small (host : Host) (amount : Fixed64)
    (precision assetPrecision : Nat) (hle : precision ≤ assetPrecision)
    (hd : assetPrecision - precision ≤ 18) :
    checkAmountPrecise host amount precision assetPrecision =
      some (decide (amount % 10 ^ (assetPrecision - precision) = 0)) := by
  have hne : (10 : Int) ^ (assetPrecision - precision) ≠ 0 := by positivity
  simp only [checkAmountPrecise, byteSub_of_le _ _ hle hd, pow10Int64_small _ _ hd,
    goMod, hne, if_false, Option.map_some']
  congr 1
  by_cases h : amount % 10 ^ (assetPrecision - precision) = 0
  · simp [h, (tmod_eq_zero_iff_emod _ _).mpr h]
  · have h2 : ¬ amount.tmod (10 ^ (assetPrecision - precision)) = 0 :=
      fun h3 => h ((tmod_eq_zero_iff_emod _ _).mp h3)
    simp [h, h2]

/-! ## Claims about the payload check -/

/-- C1: for a RegisterAsset payload, `checkTransactionPayload` rejects with
InvalidPrecision when the declared precision is below `MinPrecision` or above
`MaxPrecision`, otherwise rejects with PrecisionMismatch when the amount is not
a multiple of `10^(MaxPrecision - precision)`, otherwise accepts; and
precision 0 with `MaxPrecision = 8` and amount 100000000 is accepted. The
imported constant `MaxPrecision` is any value up to 18 (it is 8 on the chain),
the range in which `math.Pow10` converts to `int64` exactly. -/
theorem checkTransactionPayload_registerAsset (host : Host) (txn : Transaction)
    (pld : PayloadRegisterAsset)
    (hp : txn.Payload = some (Payload.RegisterAsset pld))
    (hmax : host.MaxPrecision ≤ 18) :
    checkTransactionPayload host txn =
        (if pld.Asset.Precision < host.MinPrecision ∨
            pld.Asset.Precision > host.MaxPrecision then
          some (some errInvalidPrecision)
        else if pld.Amount % 10 ^ (host.MaxPrecision - pld.Asset.Precision) ≠ 0 then
          some (some errPrecisionMismatch)
        else some none) ∧
      (host.MinPrecision = 0 → host.MaxPrecision = 8 → pld.Asset.Precision = 0 →
        pld.Amount = 100000000 → checkTransactionPayload host txn = some none) := by
  have main : checkTransactionPayload host txn =
      (if pld.Asset.Precision < host.MinPrecision ∨
          pld.Asset.Precision > host.MaxPrecision then
        some (some errInvalidPrecision)
      else if pld.Amount % 10 ^ (host.MaxPrecision - pld.Asset.Precision) ≠ 0 then
        some (some errPrecisionMismatch)
      else some none) := by
    unfold checkTransactionPayload
    rw [hp]
    by_cases hr : pld.Asset.Precision < host.MinPrecision ∨
        pld.Asset.Precision > host.MaxPrecision
    · simp only [hr, if_true]
    · simp only [hr, if_false]
      have hle : pld.Asset.Precision ≤ host.MaxPrecision := by omega
      rw [checkAmountPrecise_small host pld.Amount _ _ hle (by omega)]
      by_cases hm : pld.Amount % 10 ^ (host.MaxPrecision - pld.Asset.Precision) = 0
      · simp [hm]
      · simp [hm]
  refine ⟨main, ?_⟩
  intro hmin h8 h0 ha
  rw [main, hmin, h8, h0, ha]
  decide

/-- On a host with `MaxPrecision = 8`, a RegisterAsset transaction declaring
precision 0 for the amount 100000000 is accepted, one declaring precision 9 is
rejected with InvalidPrecision, and one declaring precision 6 for the amount
1501 is rejected with PrecisionMismatch. -/
theorem checkTransactionPayload_registerAsset_witness :
    checkTransactionPayload amd64Host
        (txOf TransactionType.RegisterAsset
          (some (Payload.RegisterAsset ⟨⟨"a", "b", 0, 0, 0⟩, 100000000, hashOf 0x21⟩))
          []) = some none ∧
      checkTransactionPayload amd64Host
        (txOf TransactionType.RegisterAsset
          (some (Payload.RegisterAsset ⟨⟨"a", "b", 9, 0, 0⟩, 100000000, hashOf 0x21⟩))
          []) = some (some errInvalidPrecision) ∧
      checkTransactionPayload amd64Host
        (txOf TransactionType.RegisterAsset
          (some (Payload.RegisterAsset ⟨⟨"a", "b", 6, 0, 0⟩, 1501, hashOf 0x21⟩))
          []) = some (some errPrecisionMismatch) :=
  ⟨(checkTransactionPayload_registerAsset amd64Host _
      ⟨⟨"a", "b", 0, 0, 0⟩, 100000000, hashOf 0x21⟩ rfl (by decide)).2
      rfl rfl rfl rfl,
    (checkTransactionPayload_registerAsset amd64Host _
      ⟨⟨"a", "b", 9, 0, 0⟩, 100000000, hashOf 0x21⟩ rfl (by decide)).1.trans
      (by decide),
    (checkTransactionPayload_registerAsset amd64Host _
      ⟨⟨"a", "b", 6, 0, 0⟩, 1501, hashOf 0x21⟩ rfl (by decide)).1.trans
      (by decide)⟩

/-- C2 as stated fails: with declared precision 0 and maximum precision 19 the
power of ten no longer fits in an `int64`; on amd64 the conversion yields
`-2^63`, so the amount `-2^63` passes although it is not a multiple of
`10^19`. -/
theorem checkAmountPrecise_large_exponent_counterexample :
    (0 : Nat) ≤ 19 ∧ isInt64 (-2 ^ 63) ∧
      checkAmountPrecise amd64Host (-2 ^ 63) 0 19 = some true ∧
      ¬ ((-2 ^ 63 : Int) % 10 ^ (19 - 0) = 0) := by
  decide

/-- On every platform the claim fails at declared precision 0 and maximum
precision 19: whatever `int64` the conversion yields, some `int64` amount is
answered differently from the divisibility test, or the check panics. -/
theorem checkAmountPrecise_exponent19_any_platform (host : Host)
    (hov : isInt64 (host.pow10Overflow 19)) :
    ∃ amount : Fixed64, isInt64 amount ∧
      ¬ (checkAmountPrecise host amount 0 19 = some true ↔
        amount % 10 ^ (19 - 0) = 0) := by
  have hb : byteSub 19 0 = 19 := by decide
  by_cases hz : host.pow10Overflow 19 = 0
  · refine ⟨0, by decide, ?_⟩
    simp [checkAmountPrecise, hb, pow10Int64, goMod, hz]
  · refine ⟨host.pow10Overflow 19, hov, ?_⟩
    have h1 : checkAmountPrecise host (host.pow10Overflow 19) 0 19 = some true := by
      simp [checkAmountPrecise, hb, pow10Int64, goMod, hz, Int.tmod_self]
    have h2 : ¬ (host.pow10Overflow 19 % 10 ^ (19 - 0) = 0) := by
      unfold isInt64 at hov
      norm_num at hov ⊢
      omega
    exact fun hiff => h2 (hiff.mp h1)

/-- C2, amended: when the declared precision is at most the maximum precision
and their difference is at most 18, `checkAmountPrecise` returns true if the
amount modulo `10^(maxPrecision - declaredPrecision)` is zero and false
otherwise, without panicking. -/
theorem checkAmountPrecise_iff_mod (host : Host) (amount : Fixed64)
    (declaredPrecision maxPrecision : Nat) (hle : declaredPrecision ≤ maxPrecision)
    (hd : maxPrecision - declaredPrecision ≤ 18) :
    (checkAmountPrecise host amount declaredPrecision maxPrecision = some true ↔
        amount % 10 ^ (maxPrecision - declaredPrecision) = 0) ∧
      (checkAmountPrecise host amount declaredPrecision maxPrecision = some false ↔
        amount % 10 ^ (maxPrecision - declaredPrecision) ≠ 0) := by
  rw [checkAmountPrecise_small host amount _ _ hle hd]
  by_cases h : amount % 10 ^ (maxPrecision - declaredPrecision) = 0
  · simp [h]
  · simp [h]

/-- The amount 1500 at declared precision 6 and maximum precision 8 is a
multiple of 100 and passes; 1501 does not. -/
theorem checkAmountPrecise_iff_mod_witness :
    checkAmountPrecise amd64Host 1500 6 8 = some true ∧
      checkAmountPrecise amd64Host 1501 6 8 = some false :=
  ⟨(checkAmountPrecise_iff_mod amd64Host 1500 6 8 (by decide) (by decide)).1.mpr
      (by decide),
    (checkAmountPrecise_iff_mod amd64Host 1501 6 8 (by decide) (by decide)).2.mpr
      (by decide)⟩

/-- C3: a transaction whose payload is `nil` or of a type outside the eight
variants of the type switch is rejected with UnsupportedPayloadType, and so is
never accepted. -/
theorem checkTransactionPayload_unknown (host : Host) (txn : Transaction)
    (hp : txn.Payload = none ∨
      ∃ typeName content, txn.Payload = some (Payload.Other typeName content)) :
    checkTransactionPayload host txn = some (some errUnsupportedPayloadType) ∧
      checkTransactionPayload host txn ≠ some none := by
  have main : checkTransactionPayload host txn =
      some (some errUnsupportedPayloadType) := by
    unfold checkTransactionPayload
    rcases hp with h | ⟨typeName, content, h⟩
    · rw [h]
    · rw [h]
  refine ⟨main, ?_⟩
  rw [main]
  simp

/-- A transaction carrying a payload of a type the switch does not name is
rejected, and so is one without payload. -/
theorem checkTransactionPayload_unknown_witness :
    checkTransactionPayload amd64Host
        (txOf (TransactionType.Other 5) (some (Payload.Other "SideChainPow" [1, 2])) [])
        = some (some errUnsupportedPayloadType) ∧
      checkTransactionPayload amd64Host (txOf TransactionType.TransferAsset none [])
        = some (some errUnsupportedPayloadType) :=
  ⟨(checkTransactionPayload_unknown amd64Host _ (Or.inr ⟨_, _, rfl⟩)).1,
    (checkTransactionPayload_unknown amd64Host _ (Or.inl rfl)).1⟩

/-- C4: a transaction whose payload is TransferAsset, Record, CoinBase,
RechargeToSideChain, TransferCrossChainAsset, Deploy or Invoke is accepted,
whatever the payload holds and whatever the tag, inputs, outputs and programs
of the transaction are. -/
theorem checkTransactionPayload_structural (host : Host) (ty : TransactionType)
    (content : List Nat) (pld : Payload) (inputs : List Input)
    (outputs : List Output) (programs : List Program)
    (hp : pld = Payload.TransferAsset content ∨ pld = Payload.Record content ∨
      pld = Payload.CoinBase content ∨ pld = Payload.RechargeToSideChain content ∨
      pld = Payload.TransferCrossChainAsset content ∨ pld = Payload.Deploy content ∨
      pld = Payload.Invoke content) :
    checkTransactionPayload host ⟨ty, some pld, inputs, outputs, programs⟩ =
      some none := by
  rcases hp with h | h | h | h | h | h | h <;> rw [h] <;> rfl

/-- An Invoke transaction with arbitrary payload bytes and an output of a
foreign asset is accepted by the payload check. -/
theorem checkTransactionPayload_structural_witness :
    checkTransactionPayload amd64Host
      ⟨TransactionType.Invoke, some (Payload.Invoke [7, 7]), [],
        [outputOf 2 5 0xFF], [⟨[1], [2]⟩]⟩ = some none :=
  checkTransactionPayload_structural amd64Host TransactionType.Invoke [7, 7]
    (Payload.Invoke [7, 7]) [] [outputOf 2 5 0xFF] [⟨[1], [2]⟩]
    (Or.inr (Or.inr (Or.inr (Or.inr (Or.inr (Or.inr rfl))))))

/-! ## The loop of the ordinary branch -/

theorem ordinaryOutputs_eq_none_iff (host : Host) (v : validator)
    (outs : List Output) :
    ordinaryOutputs host v outs = none ↔
      ∀ o ∈ outs, o.AssetID = v.systemAssetID ∧
        checkOutputProgramHash host o.ProgramHash = true := by
  induction outs with
  | nil => simp [ordinaryOutputs]
  | cons o rest ih =>
    by_cases ha : o.AssetID = v.systemAssetID
    · by_cases hd : checkOutputProgramHash host o.ProgramHash = true
      · simp [ordinaryOutputs, ha, hd, ih]
      · simp [ordinaryOutputs, ha, hd]
    · simp [ordinaryOutputs, ha]

theorem ordinaryOutputs_first_violation (host : Host) (v : validator)
    (pre : List Output) (o : Output) (post : List Output)
    (hpre : ∀ x ∈ pre, x.AssetID = v.systemAssetID ∧
      checkOutputProgramHash host x.ProgramHash = true) :
    (o.AssetID ≠ v.systemAssetID →
        ordinaryOutputs host v (pre ++ o :: post) = some errInvalidAssetID) ∧
      (o.AssetID = v.systemAssetID →
        checkOutputProgramHash host o.ProgramHash = false →
        ordinaryOutputs host v (pre ++ o :: post) = some errInvalidDestination) := by
  induction pre with
  | nil =>
    constructor
    · intro ha
      simp [ordinaryOutputs, ha]
    · intro ha hd
      simp [ordinaryOutputs, ha, hd]
  | cons x xs ih =>
    have hx := hpre x (List.mem_cons_self x xs)
    have hxs : ∀ y ∈ xs, y.AssetID = v.systemAssetID ∧
        checkOutputProgramHash host y.ProgramHash = true :=
      fun y hy => hpre y (List.mem_cons_of_mem x hy)
    have step : ordinaryOutputs host v ((x :: xs) ++ o :: post) =
        ordinaryOutputs host v (xs ++ o :: post) := by
      simp [ordinaryOutputs, hx.1, hx.2]
    rw [step]
    exact ih hxs

theorem Uint168.eq_empty_iff (h : Uint168) :
    h = Uint168.empty ↔ ∀ b ∈ h.bytes, b = 0 := by
  constructor
  · intro he b hb
    rw [he] at hb
    exact List.eq_of_mem_replicate hb
  · intro hall
    cases h with
    | mk bytes size isByte =>
      have hb : bytes = List.replicate 21 0 :=
        List.eq_replicate_iff.mpr ⟨size, hall⟩
      subst hb
      rfl

/-! ## Claims about the ordinary branch and the classifier -/

/-- C5 as stated fails: in a transaction whose first output has the system
asset and an unrecognized destination and whose second output carries another
asset, some output carries another asset, yet the error is InvalidDestination
and not InvalidAssetID. -/
theorem checkTransactionOutput_asset_error_counterexample :
    (txOf TransactionType.TransferAsset none
        [outputOf 1 5 0xFF, outputOf 2 5 0x21]).IsCoinBaseTx = false ∧
      (∃ o ∈ [outputOf 1 5 0xFF, outputOf 2 5 0x21],
        o.AssetID ≠ exampleValidator.systemAssetID) ∧
      checkTransactionOutput amd64Host exampleValidator
        (txOf TransactionType.TransferAsset none
          [outputOf 1 5 0xFF, outputOf 2 5 0x21]) = some errInvalidDestination ∧
      errInvalidDestination ≠ errInvalidAssetID := by
  decide

/-- C5, amended: a non-coinbase transaction is accepted exactly when it has at
least one output and every output carries the system asset and a destination
that passes `checkOutputProgramHash`; it is rejected with NoOutputs when it has
no outputs, and otherwise with the error of the first output that breaks a
rule: InvalidAssetID when that output carries another asset, InvalidDestination
when it carries the system asset and its destination is not recognized. -/
theorem checkTransactionOutput_ordinary (host : Host) (v : validator)
    (txn : Transaction) (hcb : txn.IsCoinBaseTx = false) :
    (checkTransactionOutput host v txn = none ↔
        1 ≤ txn.Outputs.length ∧
          ∀ o ∈ txn.Outputs, o.AssetID = v.systemAssetID ∧
            checkOutputProgramHash host o.ProgramHash = true) ∧
      (txn.Outputs = [] → checkTransactionOutput host v txn = some errNoOutputs) ∧
      (∀ pre o post, txn.Outputs = pre ++ o :: post →
        (∀ x ∈ pre, x.AssetID = v.systemAssetID ∧
          checkOutputProgramHash host x.ProgramHash = true) →
        (o.AssetID ≠ v.systemAssetID →
          checkTransactionOutput host v txn = some errInvalidAssetID) ∧
        (o.AssetID = v.systemAssetID →
          checkOutputProgramHash host o.ProgramHash = false →
          checkTransactionOutput host v txn = some errInvalidDestination)) := by
  refine ⟨?_, ?_, ?_⟩
  · by_cases hlen : txn.Outputs.length < 1
    · have h0 : ¬ 1 ≤ txn.Outputs.length := by omega
      simp [checkTransactionOutput, hcb, hlen, h0]
    · have h1 : 1 ≤ txn.Outputs.length := by omega
      simp only [checkTransactionOutput, hcb, hlen, if_false, Bool.false_eq_true,
        h1, true_and]
      exact ordinaryOutputs_eq_none_iff host v txn.Outputs
  · intro hnil
    simp [checkTransactionOutput, hcb, hnil]
  · intro pre o post hsplit hpre
    have hlen : ¬ txn.Outputs.length < 1 := by
      rw [hsplit]
      simp
    have hrun : checkTransactionOutput host v txn =
        ordinaryOutputs host v (pre ++ o :: post) := by
      simp only [checkTransactionOutput, hcb, hlen, if_false, Bool.false_eq_true]
      rw [hsplit]
    rw [hrun]
    exact ordinaryOutputs_first_violation host v pre o post hpre

/-- A transfer with two well-formed outputs is accepted, and one whose second
output carries a foreign asset is rejected with InvalidAssetID. -/
theorem checkTransactionOutput_ordinary_witness :
    checkTransactionOutput amd64Host exampleValidator
        (txOf TransactionType.TransferAsset none
          [outputOf 1 5 0x21, outputOf 1 7 0x12]) = none ∧
      checkTransactionOutput amd64Host exampleValidator
        (txOf TransactionType.TransferAsset none
          [outputOf 1 5 0x21, outputOf 2 7 0x12]) = some errInvalidAssetID :=
  ⟨(checkTransactionOutput_ordinary amd64Host exampleValidator
      (txOf TransactionType.TransferAsset none
        [outputOf 1 5 0x21, outputOf 1 7 0x12]) rfl).1.mpr (by decide),
    ((checkTransactionOutput_ordinary amd64Host exampleValidator
      (txOf TransactionType.TransferAsset none
        [outputOf 1 5 0x21, outputOf 2 7 0x12]) rfl).2.2
      [outputOf 1 5 0x21] (outputOf 2 7 0x12) [] rfl (by decide)).1 (by decide)⟩

/-- C6: `checkOutputProgramHash` is true exactly for the hashes whose first
byte is the Standard, Multisig, CrossChain, RegisterId or SmartContract prefix
and for the hash whose bytes are all zero, and false for every other hash. -/
theorem checkOutputProgramHash_iff (host : Host) (h : Uint168) :
    (checkOutputProgramHash host h = true ↔
        (h.byte0 = host.PrefixStandard ∨ h.byte0 = host.PrefixMultisig ∨
          h.byte0 = host.PrefixCrossChain ∨ h.byte0 = host.PrefixRegisterId ∨
          h.byte0 = host.PrefixSmartContract ∨ ∀ b ∈ h.bytes, b = 0)) ∧
      (checkOutputProgramHash host h = false ↔
        ¬ (h.byte0 = host.PrefixStandard ∨ h.byte0 = host.PrefixMultisig ∨
          h.byte0 = host.PrefixCrossChain ∨ h.byte0 = host.PrefixRegisterId ∨
          h.byte0 = host.PrefixSmartContract ∨ ∀ b ∈ h.bytes, b = 0)) := by
  have main : checkOutputProgramHash host h = true ↔
      (h.byte0 = host.PrefixStandard ∨ h.byte0 = host.PrefixMultisig ∨
        h.byte0 = host.PrefixCrossChain ∨ h.byte0 = host.PrefixRegisterId ∨
        h.byte0 = host.PrefixSmartContract ∨ ∀ b ∈ h.bytes, b = 0) := by
    rw [← Uint168.eq_empty_iff]
    simp [checkOutputProgramHash]
  refine ⟨main, ?_⟩
  rw [← main]
  simp

/-! ## Wrap-around and the loop of the coinbase branch -/

theorem wrap64_of_isInt64 (x : Int) (h : isInt64 x) : wrap64 x = x := by
  unfold isInt64 at h
  unfold wrap64
  omega

theorem wrap64_wrap_add (a b : Int) : wrap64 (wrap64 a + b) = wrap64 (a + b) := by
  unfold wrap64
  omega

theorem totalValue_cons (o : Output) (rest : List Output) :
    totalValue (o :: rest) = o.Value + totalValue rest := by
  simp [totalValue]

theorem foundationValue_cons (v : validator) (o : Output) (rest : List Output) :
    foundationValue v (o :: rest) =
      (if o.ProgramHash = v.foundation then o.Value else 0) +
        foundationValue v rest := by
  by_cases h : o.ProgramHash = v.foundation
  · simp [foundationValue, h]
  · simp [foundationValue, h]

theorem coinbaseOutputs_error (v : validator) (outs : List Output)
    (hbad : ∃ o ∈ outs, o.AssetID ≠ v.systemAssetID) (t f : Fixed64) :
    coinbaseOutputs v outs t f = Except.error errInvalidAssetIDCoinbase := by
  induction outs generalizing t f with
  | nil => simp at hbad
  | cons o rest ih =>
    by_cases ha : o.AssetID = v.systemAssetID
    · have hrest : ∃ x ∈ rest, x.AssetID ≠ v.systemAssetID := by
        obtain ⟨x, hx, hne⟩ := hbad
        rcases List.mem_cons.mp hx with h | h
        · exact absurd (h ▸ ha) hne
        · exact ⟨x, h, hne⟩
      simp only [coinbaseOutputs, ha, ne_eq, not_true_eq_false, if_false]
      exact ih hrest _ _
    · simp [coinbaseOutputs, ha]

theorem coinbaseOutputs_ok (v : validator) (outs : List Output)
    (hasset : ∀ o ∈ outs, o.AssetID = v.systemAssetID) (t f : Int) :
    coinbaseOutputs v outs (wrap64 t) (wrap64 f) =
      Except.ok (wrap64 (t + totalValue outs), wrap64 (f + foundationValue v outs)) := by
  induction outs generalizing t f with
  | nil => simp [coinbaseOutputs, totalValue, foundationValue]
  | cons o rest ih =>
    have ha : o.AssetID = v.systemAssetID := hasset o (List.mem_cons_self o rest)
    have hrest : ∀ x ∈ rest, x.AssetID = v.systemAssetID :=
      fun x hx => hasset x (List.mem_cons_of_mem o hx)
    simp only [coinbaseOutputs, ha, ne_eq, not_true_eq_false, if_false]
    rw [wrap64_wrap_add, totalValue_cons, foundationValue_cons]
    by_cases hf : o.ProgramHash = v.foundation
    · simp only [hf, if_true]
      rw [wrap64_wrap_add, ih hrest, add_assoc, add_assoc]
    · simp only [hf, if_false]
      rw [ih hrest, add_assoc, zero_add]

theorem checkTransactionOutput_coinbase_eq (host : Host) (v : validator)
    (txn : Transaction) (hcb : txn.IsCoinBaseTx = true)
    (hlen : 2 ≤ txn.Outputs.length)
    (hasset : ∀ o ∈ txn.Outputs, o.AssetID = v.systemAssetID) :
    checkTransactionOutput host v txn =
      if wrap64 (foundationValue v txn.Outputs) <
          thirtyPercent (wrap64 (totalValue txn.Outputs)) then
        some errInsufficientFoundationReward
      else none := by
  have hl : ¬ txn.Outputs.length < 2 := by omega
  have h0 : (0 : Int) = wrap64 0 := by decide
  have hrun := coinbaseOutputs_ok v txn.Outputs hasset 0 0
  rw [← h0, zero_add, zero_add] at hrun
  simp only [checkTransactionOutput, hcb, hl, if_true, if_false, hrun]

theorem foundationValue_bounds (v : validator) (outs : List Output)
    (hnn : ∀ o ∈ outs, 0 ≤ o.Value) :
    0 ≤ foundationValue v outs ∧ foundationValue v outs ≤ totalValue outs := by
  induction outs with
  | nil => simp [foundationValue, totalValue]
  | cons o rest ih =>
    have ho : (0 : Int) ≤ o.Value := hnn o (List.mem_cons_self o rest)
    have hr := ih (fun x hx => hnn x (List.mem_cons_of_mem o hx))
    rw [totalValue_cons, foundationValue_cons]
    by_cases hf : o.ProgramHash = v.foundation
    · simp only [hf, if_true]; omega
    · simp only [hf, if_false]; omega

/-! ## Rounding to a `float64` -/

theorem dropBits_spec (fuel : Nat) : ∀ s n : Nat, n < 2 ^ (53 + s + fuel) →
    (s = 0 ∨ 2 ^ (52 + s) ≤ n) →
    n < 2 ^ (53 + dropBits fuel s n) ∧
      (dropBits fuel s n = 0 ∨ 2 ^ (52 + dropBits fuel s n) ≤ n) := by
  induction fuel with
  | zero =>
    intro s n hn hlow
    exact ⟨by simpa [dropBits] using hn, by simpa [dropBits] using hlow⟩
  | succ fuel ih =>
    intro s n hn hlow
    by_cases hlt : n < 2 ^ (53 + s)
    · have e : dropBits (fuel + 1) s n = s := by
        rw [dropBits]; exact if_pos hlt
      rw [e]
      exact ⟨hlt, hlow⟩
    · have e : dropBits (fuel + 1) s n = dropBits fuel (s + 1) n := by
        rw [dropBits]; exact if_neg hlt
      rw [e]
      apply ih (s + 1) n
      · have : 53 + (s + 1) + fuel = 53 + s + (fuel + 1) := by omega
        rw [this]; exact hn
      · right
        have : 52 + (s + 1) = 53 + s := by omega
        rw [this]; omega

theorem roundTo53_small (n : Nat) (h : n < 2 ^ 53) : roundTo53 n = n := by
  have hs : dropBits 64 0 n = 0 := by
    rw [show (64 : Nat) = 63 + 1 from rfl, dropBits]
    exact if_pos h
  simp [roundTo53, hs, Nat.mod_one]

theorem roundTo53_at (n s : Nat) (hs : dropBits 64 0 n = s) :
    roundTo53 n =
      if 2 * (n % 2 ^ s) < 2 ^ s then n / 2 ^ s * 2 ^ s
      else if 2 * (n % 2 ^ s) > 2 ^ s then (n / 2 ^ s + 1) * 2 ^ s
      else if n / 2 ^ s % 2 = 0 then n / 2 ^ s * 2 ^ s
      else (n / 2 ^ s + 1) * 2 ^ s := by
  subst hs
  rfl

theorem dropBits_product_le (t : Nat) (ht : t < 2 ^ 50) :
    ∃ s, s ≤ 50 ∧ dropBits 64 0 (t * float03) = s ∧ t * float03 < 2 ^ (53 + s) ∧
      (s = 0 ∨ 2 ^ (52 + s) ≤ t * float03) := by
  have hN : t * float03 < 2 ^ (53 + 0 + 64) := by
    have h1 : t * float03 < 2 ^ 50 * 2 ^ 53 :=
      Nat.mul_lt_mul'' ht (by unfold float03; norm_num)
    calc t * float03 < 2 ^ 50 * 2 ^ 53 := h1
      _ ≤ 2 ^ (53 + 0 + 64) := by norm_num
  obtain ⟨h1, h2⟩ := dropBits_spec 64 0 (t * float03) hN (Or.inl rfl)
  refine ⟨_, ?_, rfl, h1, h2⟩
  rcases h2 with h2 | h2
  · omega
  · by_contra hc
    have h51 : 52 + 51 ≤ 52 + dropBits 64 0 (t * float03) := by omega
    have h3 := Nat.pow_le_pow_right (by norm_num : 0 < 2) h51
    have h4 : t * float03 < 2 ^ 50 * 2 ^ 53 :=
      Nat.mul_lt_mul'' ht (by unfold float03; norm_num)
    have h5 : (2 : Nat) ^ 50 * 2 ^ 53 = 2 ^ (52 + 51) := by norm_num
    omega

theorem roundTo53_near (n : Nat) :
    ∃ q, roundTo53 n = q * 2 ^ dropBits 64 0 n ∧
      2 * roundTo53 n ≤ 2 * n + 2 ^ dropBits 64 0 n ∧
      2 * n ≤ 2 * roundTo53 n + 2 ^ dropBits 64 0 n := by
  rw [roundTo53_at n _ rfl]
  have hpos : 0 < 2 ^ dropBits 64 0 n := Nat.pow_pos (by norm_num)
  generalize 2 ^ dropBits 64 0 n = P at hpos ⊢
  have hlt : n % P < P := Nat.mod_lt n hpos
  have hdm : P * (n / P) + n % P = n := Nat.div_add_mod n P
  have hcomm : n / P * P = P * (n / P) := Nat.mul_comm _ _
  have hsucc : (n / P + 1) * P = P * (n / P) + P := by ring
  split_ifs
  · exact ⟨n / P, rfl, by omega, by omega⟩
  · exact ⟨n / P + 1, rfl, by omega, by omega⟩
  · exact ⟨n / P, rfl, by omega, by omega⟩
  · exact ⟨n / P + 1, rfl, by omega, by omega⟩

theorem roundTo53_scaled_floor (t : Nat) (ht : t < 2 ^ 50) :
    roundTo53 (t * float03) / 2 ^ 54 = t * 3 / 10 := by
  by_cases ht0 : t = 0
  · subst ht0
    decide
  obtain ⟨s, hs50, hs, h1, -⟩ := dropBits_product_le t ht
  obtain ⟨q, hq, hlo, hhi⟩ := roundTo53_near (t * float03)
  rw [hs] at hq hlo hhi
  have hPpos : 0 < 2 ^ s := Nat.pow_pos (by norm_num)
  have hP50 : 2 ^ s ≤ 2 ^ 50 := Nat.pow_le_pow_right (by norm_num) hs50
  have hPR : 2 ^ s * 2 ^ (54 - s) = 2 ^ 54 := by
    rw [← pow_add]
    congr 1
    omega
  have h1a : t * float03 < 2 ^ 53 * 2 ^ s := by
    rw [← pow_add]; exact h1
  generalize 2 ^ s = P at *
  generalize 2 ^ (54 - s) = R at *
  generalize roundTo53 (t * float03) = p at *
  have hN : t * float03 = t * 5404319552844595 := rfl
  generalize t * float03 = N at *
  norm_num at ht hP50 hPR h1a
  have hU : p < (t * 3 / 10 + 1) * 18014398509481984 := by omega
  have hL : t * 3 / 10 * 18014398509481984 ≤ p := by
    by_cases hr : t * 3 % 10 = 0
    · have h4 : 4 * (t / 10) < P := by omega
      have h5 : t * 3 / 10 * 18014398509481984 < p + P := by omega
      have h6 : (t * 3 / 10 * R) * P < (q + 1) * P := by
        calc (t * 3 / 10 * R) * P = t * 3 / 10 * (P * R) := by ring
          _ = t * 3 / 10 * 18014398509481984 := by rw [hPR]
          _ < p + P := h5
          _ = (q + 1) * P := by rw [hq]; ring
      have h7 : t * 3 / 10 * R < q + 1 := Nat.lt_of_mul_lt_mul_right h6
      have h8 : (t * 3 / 10 * R) * P ≤ q * P := Nat.mul_le_mul_right P (by omega)
      calc t * 3 / 10 * 18014398509481984 = t * 3 / 10 * (P * R) := by rw [hPR]
        _ = (t * 3 / 10 * R) * P := by ring
        _ ≤ q * P := h8
        _ = p := hq.symm
    · omega
  omega

theorem thirtyPercent_floor (total : Int) (h0 : 0 ≤ total) (h : total < 2 ^ 50) :
    thirtyPercent total = total * 3 / 10 := by
  obtain ⟨t, rfl⟩ := Int.eq_ofNat_of_zero_le h0
  have ht : t < 2 ^ 50 := by exact_mod_cast h
  have ht53 : t < 2 ^ 53 := lt_trans ht (by norm_num)
  by_cases ht0 : t = 0
  · subst ht0
    decide
  have hsign : Int.sign (t : Int) = 1 := Int.sign_eq_one_of_pos (by omega)
  simp only [thirtyPercent, Int.natAbs_ofNat, roundTo53_small t ht53, hsign, one_mul,
    roundTo53_scaled_floor t ht]
  push_cast
  rfl

/-! ## Claims about the coinbase branch -/

/-- C7: a coinbase transaction with fewer than two outputs is rejected with
InsufficientOutputs, whatever its outputs hold. -/
theorem checkTransactionOutput_coinbase_few_outputs (host : Host) (v : validator)
    (txn : Transaction) (hcb : txn.IsCoinBaseTx = true)
    (hlen : txn.Outputs.length < 2) :
    checkTransactionOutput host v txn = some errInsufficientOutputs := by
  simp [checkTransactionOutput, hcb, hlen]

/-- A coinbase whose single output pays the system asset to the foundation is
rejected for having too few outputs. -/
theorem checkTransactionOutput_coinbase_few_outputs_witness :
    checkTransactionOutput amd64Host exampleValidator
      (txOf TransactionType.CoinBase (some (Payload.CoinBase []))
        [outputOf 1 1000 0x21]) = some errInsufficientOutputs :=
  checkTransactionOutput_coinbase_few_outputs amd64Host exampleValidator
    (txOf TransactionType.CoinBase (some (Payload.CoinBase []))
      [outputOf 1 1000 0x21]) rfl (by decide)

/-- C8: a coinbase transaction with at least two outputs, one of which carries
an asset other than the system asset, is rejected with InvalidAssetID, whatever
the values and destinations of the outputs are. -/
theorem checkTransactionOutput_coinbase_foreign_asset (host : Host) (v : validator)
    (txn : Transaction) (hcb : txn.IsCoinBaseTx = true)
    (hlen : 2 ≤ txn.Outputs.length)
    (hbad : ∃ o ∈ txn.Outputs, o.AssetID ≠ v.systemAssetID) :
    checkTransactionOutput host v txn = some errInvalidAssetIDCoinbase := by
  have hl : ¬ txn.Outputs.length < 2 := by omega
  simp only [checkTransactionOutput, hcb, hl, if_true, if_false,
    coinbaseOutputs_error v txn.Outputs hbad 0 0]

/-- A coinbase paying everything to the foundation is rejected when its last
output carries a foreign asset. -/
theorem checkTransactionOutput_coinbase_foreign_asset_witness :
    checkTransactionOutput amd64Host exampleValidator
      (txOf TransactionType.CoinBase (some (Payload.CoinBase []))
        [outputOf 1 500 0x21, outputOf 1 400 0x21, outputOf 2 100 0x21])
      = some errInvalidAssetIDCoinbase :=
  checkTransactionOutput_coinbase_foreign_asset amd64Host exampleValidator
    (txOf TransactionType.CoinBase (some (Payload.CoinBase []))
      [outputOf 1 500 0x21, outputOf 1 400 0x21, outputOf 2 100 0x21])
    rfl (by decide) (by decide)

/-- C9 as stated fails: a coinbase paying 2 to the foundation and 7 elsewhere
is accepted, because the threshold `float64(9) * 0.3 = 2.7` is truncated to 2,
although `2 * 10 < 9 * 3`. -/
theorem checkTransactionOutput_coinbase_truncation_counterexample :
    (txOf TransactionType.CoinBase (some (Payload.CoinBase []))
        [outputOf 1 2 0x21, outputOf 1 7 0x12]).IsCoinBaseTx = true ∧
      (∀ o ∈ [outputOf 1 2 0x21, outputOf 1 7 0x12],
        o.AssetID = exampleValidator.systemAssetID) ∧
      totalValue [outputOf 1 2 0x21, outputOf 1 7 0x12] = 9 ∧
      foundationValue exampleValidator [outputOf 1 2 0x21, outputOf 1 7 0x12] = 2 ∧
      ¬ ((2 : Int) * 10 ≥ 9 * 3) ∧
      checkTransactionOutput amd64Host exampleValidator
        (txOf TransactionType.CoinBase (some (Payload.CoinBase []))
          [outputOf 1 2 0x21, outputOf 1 7 0x12]) = none := by
  decide

/-- C9, amended: a coinbase transaction with at least two outputs that all
carry the system asset is accepted exactly when the foundation reward is at
least `Fixed64(float64(totalReward) * 0.3)`, both rewards being the 64-bit
wrapped sums, and is otherwise rejected with InsufficientFoundationReward; when
no output value is negative and the values total less than `2^50`, that
threshold is thirty percent of the total rounded down to a whole unit. -/
theorem checkTransactionOutput_coinbase_reward (host : Host) (v : validator)
    (txn : Transaction) (hcb : txn.IsCoinBaseTx = true)
    (hlen : 2 ≤ txn.Outputs.length)
    (hasset : ∀ o ∈ txn.Outputs, o.AssetID = v.systemAssetID) :
    (checkTransactionOutput host v txn = none ↔
        thirtyPercent (wrap64 (totalValue txn.Outputs)) ≤
          wrap64 (foundationValue v txn.Outputs)) ∧
      (checkTransactionOutput host v txn ≠ none →
        checkTransactionOutput host v txn = some errInsufficientFoundationReward) ∧
      ((∀ o ∈ txn.Outputs, 0 ≤ o.Value) → totalValue txn.Outputs < 2 ^ 50 →
        (checkTransactionOutput host v txn = none ↔
          totalValue txn.Outputs * 3 / 10 ≤ foundationValue v txn.Outputs)) := by
  have hrun := checkTransactionOutput_coinbase_eq host v txn hcb hlen hasset
  have hiff : checkTransactionOutput host v txn = none ↔
      thirtyPercent (wrap64 (totalValue txn.Outputs)) ≤
        wrap64 (foundationValue v txn.Outputs) := by
    rw [hrun]
    by_cases hlt : wrap64 (foundationValue v txn.Outputs) <
        thirtyPercent (wrap64 (totalValue txn.Outputs))
    · simp [hlt]
    · simp only [hlt, if_false, true_iff]
      exact not_lt.mp hlt
  refine ⟨hiff, ?_, ?_⟩
  · intro hne
    rw [hrun] at hne ⊢
    by_cases hlt : wrap64 (foundationValue v txn.Outputs) <
        thirtyPercent (wrap64 (totalValue txn.Outputs))
    · simp [hlt]
    · simp [hlt] at hne
  · intro hnn htot
    obtain ⟨hf0, hft⟩ := foundationValue_bounds v txn.Outputs hnn
    have ht0 : (0 : Int) ≤ totalValue txn.Outputs := le_trans hf0 hft
    have h50 : (2 : Int) ^ 50 < 2 ^ 63 := by norm_num
    have hwt : wrap64 (totalValue txn.Outputs) = totalValue txn.Outputs :=
      wrap64_of_isInt64 _ ⟨by omega, by omega⟩
    have hwf : wrap64 (foundationValue v txn.Outputs) = foundationValue v txn.Outputs :=
      wrap64_of_isInt64 _ ⟨by omega, by omega⟩
    rw [hiff, hwt, hwf, thirtyPercent_floor _ ht0 htot]

/-- A coinbase of total 1000 paying 300 to the foundation is accepted. -/
theorem checkTransactionOutput_coinbase_reward_witness :
    checkTransactionOutput amd64Host exampleValidator
      (txOf TransactionType.CoinBase (some (Payload.CoinBase []))
        [outputOf 1 300 0x21, outputOf 1 700 0x12]) = none :=
  ((checkTransactionOutput_coinbase_reward amd64Host exampleValidator
    (txOf TransactionType.CoinBase (some (Payload.CoinBase []))
      [outputOf 1 300 0x21, outputOf 1 700 0x12])
    rfl (by decide) (by decide)).2.2 (by decide) (by decide)).mpr (by decide)

/-- C10: a coinbase transaction with at least two system-asset outputs whose
values total 1000 is accepted when the outputs addressed to the foundation
total 300, and rejected with InsufficientFoundationReward when they total
299. -/
theorem checkTransactionOutput_coinbase_thousand (host : Host) (v : validator)
    (txn : Transaction) (hcb : txn.IsCoinBaseTx = true)
    (hlen : 2 ≤ txn.Outputs.length)
    (hasset : ∀ o ∈ txn.Outputs, o.AssetID = v.systemAssetID)
    (htotal : totalValue txn.Outputs = 1000) :
    (foundationValue v txn.Outputs = 300 →
        checkTransactionOutput host v txn = none) ∧
      (foundationValue v txn.Outputs = 299 →
        checkTransactionOutput host v txn = some errInsufficientFoundationReward) := by
  have hrun := checkTransactionOutput_coinbase_eq host v txn hcb hlen hasset
  constructor
  · intro hf
    rw [hrun, htotal, hf]
    decide
  · intro hf
    rw [hrun, htotal, hf]
    decide

/-- The coinbase paying 300 to the foundation and 700 elsewhere is accepted;
the one paying 299 and 701 is rejected. -/
theorem checkTransactionOutput_coinbase_thousand_witness :
    checkTransactionOutput amd64Host exampleValidator
        (txOf TransactionType.CoinBase (some (Payload.CoinBase []))
          [outputOf 1 300 0x21, outputOf 1 700 0x12]) = none ∧
      checkTransactionOutput amd64Host exampleValidator
        (txOf TransactionType.CoinBase (some (Payload.CoinBase []))
          [outputOf 1 299 0x21, outputOf 1 701 0x12])
        = some errInsufficientFoundationReward :=
  ⟨(checkTransactionOutput_coinbase_thousand amd64Host exampleValidator
      (txOf TransactionType.CoinBase (some (Payload.CoinBase []))
        [outputOf 1 300 0x21, outputOf 1 700 0x12])
      rfl (by decide) (by decide) (by decide)).1 (by decide),
    (checkTransactionOutput_coinbase_thousand amd64Host exampleValidator
      (txOf TransactionType.CoinBase (some (Payload.CoinBase []))
        [outputOf 1 299 0x21, outputOf 1 701 0x12])
      rfl (by decide) (by decide) (by decide)).2 (by decide)⟩

/-! ## Claims about the signature check -/

theorem checkTransactionSignature_recharge (c : Collaborators) (txn : Transaction)
    (hr : txn.IsRechargeToSideChainTx = true) :
    checkTransactionSignature c txn =
      ((c.VerifyTransaction txn).map errInvalidRechargeProof, txn) := by
  unfold checkTransactionSignature
  rw [if_pos hr]
  cases c.VerifyTransaction txn <;> rfl

theorem checkTransactionSignature_derivation_failed (c : Collaborators)
    (txn : Transaction) (hr : txn.IsRechargeToSideChainTx = false) (cause : String)
    (hd : c.TxProgramHashes txn = Except.error cause) :
    checkTransactionSignature c txn =
      (some (errProgramHashDerivationFailed cause), txn) := by
  unfold checkTransactionSignature
  simp [hr, hd]

theorem checkTransactionSignature_derived (c : Collaborators) (txn : Transaction)
    (hr : txn.IsRechargeToSideChainTx = false) (hashes : List Uint168)
    (hd : c.TxProgramHashes txn = Except.ok hashes) :
    checkTransactionSignature c txn =
      (match (c.SortPrograms txn.Programs).2 with
        | some err => some (errProgramSortFailed err)
        | none =>
          (c.RunPrograms (txn.withPrograms (c.SortPrograms txn.Programs).1)
            (c.SortProgramHashes hashes) (c.SortPrograms txn.Programs).1).map
            errProgramExecutionFailed,
        txn.withPrograms (c.SortPrograms txn.Programs).1) := by
  unfold checkTransactionSignature
  simp only [hr, hd, Bool.false_eq_true, if_false]
  cases hs : (c.SortPrograms txn.Programs).2 with
  | some err => rfl
  | none =>
    simp only [Transaction.withPrograms]
    cases c.RunPrograms _ _ _ <;> rfl

/-- C11: for a recharge-to-sidechain transaction `checkTransactionSignature`
returns an error exactly when the proof verifier does, that error being
InvalidRechargeProof around the verifier's cause; the result is the same for
any two sets of collaborators with the same proof verifier, so hash derivation,
sorting and program execution play no part. -/
theorem checkTransactionSignature_recharge_delegates (c : Collaborators)
    (txn : Transaction) (hr : txn.IsRechargeToSideChainTx = true) :
    ((checkTransactionSignature c txn).1 ≠ none ↔ c.VerifyTransaction txn ≠ none) ∧
      (∀ cause, c.VerifyTransaction txn = some cause →
        (checkTransactionSignature c txn).1 = some (errInvalidRechargeProof cause)) ∧
      (∀ c2 : Collaborators, c2.VerifyTransaction txn = c.VerifyTransaction txn →
        checkTransactionSignature c2 txn = checkTransactionSignature c txn) := by
  refine ⟨?_, ?_, ?_⟩
  · rw [checkTransactionSignature_recharge c txn hr]
    cases c.VerifyTransaction txn <;> simp
  · intro cause hv
    rw [checkTransactionSignature_recharge c txn hr, hv]
    rfl
  · intro c2 hv
    rw [checkTransactionSignature_recharge c txn hr,
      checkTransactionSignature_recharge c2 txn hr, hv]

/-- A recharge transaction without inputs is rejected by the stand-in verifier
and hence by the signature check, with the verifier's cause. -/
theorem checkTransactionSignature_recharge_delegates_witness :
    (checkTransactionSignature exampleCollaborators
      (signedTx TransactionType.RechargeToSideChain [] [⟨[1], [10]⟩])).1 =
        some (errInvalidRechargeProof "no proof") :=
  (checkTransactionSignature_recharge_delegates exampleCollaborators
    (signedTx TransactionType.RechargeToSideChain [] [⟨[1], [10]⟩]) rfl).2.1
    "no proof" rfl

/-- C12: for a transaction that is not a recharge, `checkTransactionSignature`
returns ProgramHashDerivationFailed when hash derivation fails, otherwise
ProgramSortFailed when sorting the programs fails, otherwise
ProgramExecutionFailed around the cause when running the sorted programs
against the sorted hashes fails, and no error exactly when all three steps
succeed; the result is the same whatever the proof verifier is. -/
theorem checkTransactionSignature_cascade (c : Collaborators) (txn : Transaction)
    (hr : txn.IsRechargeToSideChainTx = false) :
    (∀ cause, c.TxProgramHashes txn = Except.error cause →
        (checkTransactionSignature c txn).1 =
          some (errProgramHashDerivationFailed cause)) ∧
      (∀ hashes cause, c.TxProgramHashes txn = Except.ok hashes →
        (c.SortPrograms txn.Programs).2 = some cause →
        (checkTransactionSignature c txn).1 = some (errProgramSortFailed cause)) ∧
      (∀ hashes cause, c.TxProgramHashes txn = Except.ok hashes →
        (c.SortPrograms txn.Programs).2 = none →
        c.RunPrograms (txn.withPrograms (c.SortPrograms txn.Programs).1)
          (c.SortProgramHashes hashes) (c.SortPrograms txn.Programs).1 = some cause →
        (checkTransactionSignature c txn).1 = some (errProgramExecutionFailed cause)) ∧
      ((checkTransactionSignature c txn).1 = none ↔
        ∃ hashes, c.TxProgramHashes txn = Except.ok hashes ∧
          (c.SortPrograms txn.Programs).2 = none ∧
          c.RunPrograms (txn.withPrograms (c.SortPrograms txn.Programs).1)
            (c.SortProgramHashes hashes) (c.SortPrograms txn.Programs).1 = none) ∧
      (∀ verify : Transaction → Option String,
        checkTransactionSignature
          ⟨verify, c.TxProgramHashes, c.SortProgramHashes, c.SortPrograms,
            c.RunPrograms⟩ txn = checkTransactionSignature c txn) := by
  refine ⟨?_, ?_, ?_, ?_, ?_⟩
  · intro cause hd
    rw [checkTransactionSignature_derivation_failed c txn hr cause hd]
  · intro hashes cause hd hs
    rw [checkTransactionSignature_derived c txn hr hashes hd, hs]
  · intro hashes cause hd hs hrun
    rw [checkTransactionSignature_derived c txn hr hashes hd, hs, hrun]
    rfl
  · cases hd : c.TxProgramHashes txn with
    | error cause =>
      rw [checkTransactionSignature_derivation_failed c txn hr cause hd]
      simp
    | ok hashes =>
      rw [checkTransactionSignature_derived c txn hr hashes hd]
      cases hs : (c.SortPrograms txn.Programs).2 with
      | some cause => simp
      | none =>
        cases hrun : c.RunPrograms (txn.withPrograms (c.SortPrograms txn.Programs).1)
            (c.SortProgramHashes hashes) (c.SortPrograms txn.Programs).1 with
        | some cause => simp [hrun]
        | none => simp [hrun]
  · intro verify
    unfold checkTransactionSignature
    simp only [hr, Bool.false_eq_true, if_false]

/-- A transfer whose two programs have the two required hashes is accepted
after sorting, and a transfer without inputs is rejected with
ProgramHashDerivationFailed. -/
theorem checkTransactionSignature_cascade_witness :
    (checkTransactionSignature exampleCollaborators
        (signedTx TransactionType.TransferAsset [inputOf 1, inputOf 2]
          [⟨[2], [20]⟩, ⟨[1], [10]⟩])).1 = none ∧
      (checkTransactionSignature exampleCollaborators
        (signedTx TransactionType.TransferAsset [] [⟨[1], [10]⟩])).1 =
          some (errProgramHashDerivationFailed "no inputs") :=
  ⟨(checkTransactionSignature_cascade exampleCollaborators
      (signedTx TransactionType.TransferAsset [inputOf 1, inputOf 2]
        [⟨[2], [20]⟩, ⟨[1], [10]⟩]) rfl).2.2.2.1.mpr
      ⟨[hashOf 1, hashOf 2], rfl, by decide, by decide⟩,
    (checkTransactionSignature_cascade exampleCollaborators
      (signedTx TransactionType.TransferAsset [] [⟨[1], [10]⟩]) rfl).1
      "no inputs" rfl⟩

/-! ## Sorting the programs -/

theorem Uint168.eq_of_bytes_eq (a b : Uint168) (h : a.bytes = b.bytes) : a = b := by
  cases a
  cases b
  simp only [Uint168.mk.injEq]
  exact h

instance programLe_isTotal (toCodeHash : List Nat → Option Uint168) :
    IsTotal Program (programLe toCodeHash) :=
  ⟨fun p q => le_total (hashKey (toCodeHash p.Code)) (hashKey (toCodeHash q.Code))⟩

instance programLe_isTrans (toCodeHash : List Nat → Option Uint168) :
    IsTrans Program (programLe toCodeHash) :=
  ⟨fun _ _ _ h1 h2 => le_trans h1 h2⟩

theorem hashKey_nodup (toCodeHash : List Nat → Option Uint168)
    (programs : List Program)
    (hwf : ∀ p ∈ programs, (toCodeHash p.Code).isSome = true)
    (hdistinct : (programs.map (fun p => toCodeHash p.Code)).Nodup) :
    (programs.map (fun p => hashKey (toCodeHash p.Code))).Nodup := by
  have hmap : programs.map (fun p => hashKey (toCodeHash p.Code)) =
      (programs.map (fun p => toCodeHash p.Code)).map hashKey := by
    rw [List.map_map]
    rfl
  rw [hmap]
  apply List.Nodup.map_on _ hdistinct
  intro x hx y hy hxy
  obtain ⟨p, hp, rfl⟩ := List.mem_map.mp hx
  obtain ⟨q, hq, rfl⟩ := List.mem_map.mp hy
  have hps := hwf p hp
  have hqs := hwf q hq
  cases hpc : toCodeHash p.Code with
  | none => rw [hpc] at hps; cases hps
  | some a =>
    cases hqc : toCodeHash q.Code with
    | none => rw [hqc] at hqs; cases hqs
    | some b =>
      rw [hpc, hqc] at hxy
      exact congrArg some (Uint168.eq_of_bytes_eq a b hxy)

theorem insertionSort_strict (toCodeHash : List Nat → Option Uint168)
    (programs sorted : List Program)
    (hnd : (programs.map (fun p => hashKey (toCodeHash p.Code))).Nodup)
    (hperm : sorted.Perm programs)
    (hsorted : List.Sorted (programLe toCodeHash) sorted) :
    List.Sorted
      (fun p q => hashKey (toCodeHash p.Code) < hashKey (toCodeHash q.Code))
      sorted := by
  have hnd2 : (sorted.map (fun p => hashKey (toCodeHash p.Code))).Nodup :=
    (hperm.map _).nodup_iff.mpr hnd
  have hne : sorted.Pairwise
      (fun p q => hashKey (toCodeHash p.Code) ≠ hashKey (toCodeHash q.Code)) :=
    List.pairwise_map.mp hnd2
  exact (List.Pairwise.and hsorted hne).imp (fun h => lt_of_le_of_ne h.1 h.2)

theorem insertionSort_reverse (toCodeHash : List Nat → Option Uint168)
    (programs : List Program)
    (hnd : (programs.map (fun p => hashKey (toCodeHash p.Code))).Nodup) :
    programs.reverse.insertionSort (programLe toCodeHash) =
      programs.insertionSort (programLe toCodeHash) := by
  haveI : IsAntisymm Program
      (fun p q => hashKey (toCodeHash p.Code) < hashKey (toCodeHash q.Code)) :=
    ⟨fun _ _ h1 h2 => absurd h2 (lt_asymm h1)⟩
  have p1 : (programs.reverse.insertionSort (programLe toCodeHash)).Perm programs :=
    (List.perm_insertionSort _ _).trans (List.reverse_perm programs)
  have p2 : (programs.insertionSort (programLe toCodeHash)).Perm programs :=
    List.perm_insertionSort _ _
  exact List.eq_of_perm_of_sorted (p1.trans p2.symm)
    (insertionSort_strict toCodeHash programs _ hnd p1
      (List.sorted_insertionSort _ _))
    (insertionSort_strict toCodeHash programs _ hnd p2
      (List.sorted_insertionSort _ _))

theorem SortPrograms_reverse (toCodeHash : List Nat → Option Uint168)
    (programs : List Program)
    (hwf : ∀ p ∈ programs, (toCodeHash p.Code).isSome = true)
    (hdistinct : (programs.map (fun p => toCodeHash p.Code)).Nodup) :
    SortPrograms toCodeHash programs.reverse = SortPrograms toCodeHash programs := by
  have hall : programs.all (fun p => (toCodeHash p.Code).isSome) = true :=
    List.all_eq_true.mpr hwf
  have hallr : programs.reverse.all (fun p => (toCodeHash p.Code).isSome) = true :=
    List.all_eq_true.mpr (fun p hp => hwf p (List.mem_reverse.mp hp))
  unfold SortPrograms
  rw [if_pos hall, if_pos hallr,
    insertionSort_reverse toCodeHash programs
      (hashKey_nodup toCodeHash programs hwf hdistinct)]

theorem SortPrograms_perm (toCodeHash : List Nat → Option Uint168)
    (programs : List Program) :
    (SortPrograms toCodeHash programs).1.Perm programs := by
  unfold SortPrograms
  split_ifs
  · exact List.perm_insertionSort _ _
  · exact List.Perm.refl _

theorem SortPrograms_sorted (toCodeHash : List Nat → Option Uint168)
    (programs : List Program)
    (hs : (SortPrograms toCodeHash programs).2 = none) :
    List.Sorted (programLe toCodeHash) (SortPrograms toCodeHash programs).1 := by
  unfold SortPrograms at hs ⊢
  split_ifs at hs ⊢
  exact List.sorted_insertionSort _ _

theorem SortPrograms_fail_iff (toCodeHash : List Nat → Option Uint168)
    (programs : List Program) :
    (SortPrograms toCodeHash programs).2 = none ↔
      ∀ p ∈ programs, (toCodeHash p.Code).isSome = true := by
  unfold SortPrograms
  by_cases hall : programs.all (fun p => (toCodeHash p.Code).isSome) = true
  · rw [if_pos hall]
    simpa using List.all_eq_true.mp hall
  · rw [if_neg hall]
    constructor
    · intro h
      cases h
    · intro h
      exact absurd (List.all_eq_true.mpr h) hall

theorem forall₂_hash_iff (f : Program → Option Uint168) (ok : Program → Prop)
    (hashes : List Uint168) (programs : List Program) :
    List.Forall₂ (fun h p => f p = some h ∧ ok p) hashes programs ↔
      programs.map f = hashes.map some ∧ ∀ p ∈ programs, ok p := by
  induction programs generalizing hashes with
  | nil => cases hashes <;> simp
  | cons p rest ih =>
    cases hashes with
    | nil => simp
    | cons h hs =>
      simp only [List.forall₂_cons, ih, List.map_cons, List.cons.injEq,
        List.mem_cons, forall_eq_or_imp]
      tauto

theorem sorted_keys_eq (toCodeHash : List Nat → Option Uint168)
    (l1 l2 : List Program) (hperm : l1.Perm l2)
    (h1 : List.Sorted (programLe toCodeHash) l1)
    (h2 : List.Sorted (programLe toCodeHash) l2) :
    l1.map (fun p => hashKey (toCodeHash p.Code)) =
      l2.map (fun p => hashKey (toCodeHash p.Code)) := by
  have s1 : List.Sorted (fun a b : List Nat => a ≤ b)
      (l1.map (fun p => hashKey (toCodeHash p.Code))) := List.pairwise_map.mpr h1
  have s2 : List.Sorted (fun a b : List Nat => a ≤ b)
      (l2.map (fun p => hashKey (toCodeHash p.Code))) := List.pairwise_map.mpr h2
  exact List.eq_of_perm_of_sorted (hperm.map _) s1 s2

theorem map_hash_eq_of_keys_eq (toCodeHash : List Nat → Option Uint168)
    (l1 l2 : List Program)
    (hw1 : ∀ p ∈ l1, (toCodeHash p.Code).isSome = true)
    (hw2 : ∀ p ∈ l2, (toCodeHash p.Code).isSome = true)
    (hk : l1.map (fun p => hashKey (toCodeHash p.Code)) =
      l2.map (fun p => hashKey (toCodeHash p.Code))) :
    l1.map (fun p => toCodeHash p.Code) = l2.map (fun p => toCodeHash p.Code) := by
  induction l1 generalizing l2 with
  | nil =>
    cases l2 with
    | nil => rfl
    | cons q rest => simp at hk
  | cons p rest ih =>
    cases l2 with
    | nil => simp at hk
    | cons q rest2 =>
      simp only [List.map_cons, List.cons.injEq] at hk ⊢
      refine ⟨?_, ih rest2 (fun x hx => hw1 x (List.mem_cons_of_mem p hx))
        (fun x hx => hw2 x (List.mem_cons_of_mem q hx)) hk.2⟩
      have hp := hw1 p (List.mem_cons_self p rest)
      have hq := hw2 q (List.mem_cons_self q rest2)
      cases hpc : toCodeHash p.Code with
      | none => rw [hpc] at hp; cases hp
      | some a =>
        cases hqc : toCodeHash q.Code with
        | none => rw [hqc] at hq; cases hq
        | some b =>
          have hab := hk.1
          rw [hpc, hqc] at hab
          exact congrArg some (Uint168.eq_of_bytes_eq a b hab)

theorem checkTransactionSignature_none_iff (c : Collaborators) (txn : Transaction)
    (hr : txn.IsRechargeToSideChainTx = false) (hashes : List Uint168)
    (hd : c.TxProgramHashes txn = Except.ok hashes) :
    (checkTransactionSignature c txn).1 = none ↔
      (c.SortPrograms txn.Programs).2 = none ∧
        c.RunPrograms (txn.withPrograms (c.SortPrograms txn.Programs).1)
          (c.SortProgramHashes hashes) (c.SortPrograms txn.Programs).1 = none := by
  rw [checkTransactionSignature_derived c txn hr hashes hd]
  cases hs : (c.SortPrograms txn.Programs).2 with
  | some cause => simp
  | none =>
    cases hrun : c.RunPrograms (txn.withPrograms (c.SortPrograms txn.Programs).1)
        (c.SortProgramHashes hashes) (c.SortPrograms txn.Programs).1 with
    | some cause => simp [hrun]
    | none => simp [hrun]

theorem exampleCollaborators_derive (t1 t2 : Transaction)
    (hi : t1.Inputs = t2.Inputs) :
    exampleCollaborators.TxProgramHashes t1 = exampleCollaborators.TxProgramHashes t2 := by
  show (if t1.Inputs = [] then Except.error "no inputs"
      else Except.ok (t1.Inputs.map (fun i => hashOf i.ReferTxOutputIndex))) =
    (if t2.Inputs = [] then Except.error "no inputs"
      else Except.ok (t2.Inputs.map (fun i => hashOf i.ReferTxOutputIndex)))
  rw [hi]

theorem exampleCollaborators_run (t : Transaction) (hashes : List Uint168)
    (programs : List Program) :
    exampleCollaborators.RunPrograms t hashes programs = none ↔
      List.Forall₂ (fun h p => exampleCodeHash p.Code = some h ∧ True)
        hashes programs := by
  rw [forall₂_hash_iff (fun p => exampleCodeHash p.Code) (fun _ => True)]
  show (if hashes.map some = programs.map (fun p => exampleCodeHash p.Code) then none
      else some "hash mismatch") = none ↔ _
  by_cases h : hashes.map some = programs.map (fun p => exampleCodeHash p.Code)
  · rw [if_pos h]
    simp [h]
  · rw [if_neg h]
    simp only [false_iff, not_and, reduceCtorEq]
    intro h2
    exact absurd h2.symm h

theorem pairedForRun_derived (c : Collaborators) (txn : Transaction)
    (hr : txn.IsRechargeToSideChainTx = false) (hashes : List Uint168)
    (hd : c.TxProgramHashes txn = Except.ok hashes) :
    pairedForRun c txn =
      if (c.SortPrograms txn.Programs).2 = none then
        some (c.SortProgramHashes hashes, (c.SortPrograms txn.Programs).1)
      else none := by
  unfold pairedForRun
  simp only [hr, hd, Bool.false_eq_true, if_false]
  cases (c.SortPrograms txn.Programs).2 <;> simp

theorem pairedForRun_derivation_failed (c : Collaborators) (txn : Transaction)
    (cause : String) (hd : c.TxProgramHashes txn = Except.error cause) :
    pairedForRun c txn = none := by
  unfold pairedForRun
  simp only [hd]
  split_ifs <;> rfl

theorem checkTransactionSignature_paired (c : Collaborators) (txn : Transaction)
    (hr : txn.IsRechargeToSideChainTx = false) :
    (checkTransactionSignature c txn).1 = none ↔
      ∃ hashes programs, pairedForRun c txn = some (hashes, programs) ∧
        c.RunPrograms (txn.withPrograms programs) hashes programs = none := by
  cases hd : c.TxProgramHashes txn with
  | error cause =>
    rw [checkTransactionSignature_derivation_failed c txn hr cause hd,
      pairedForRun_derivation_failed c txn cause hd]
    simp
  | ok hashes =>
    rw [checkTransactionSignature_none_iff c txn hr hashes hd,
      pairedForRun_derived c txn hr hashes hd]
    by_cases hs : (c.SortPrograms txn.Programs).2 = none
    · rw [if_pos hs]
      constructor
      · intro h
        exact ⟨_, _, rfl, h.2⟩
      · rintro ⟨hs1, ps1, heq, hrun⟩
        cases heq
        exact ⟨hs, hrun⟩
    · rw [if_neg hs]
      simp [hs]

/-! ## Claims about the order of the programs -/

/-- C13 as stated fails: two programs with the same code, and so the same
hash, but different parameters keep their submitted order under the sort, so
the transaction and its reversal are paired with different sorted lists of
programs. -/
theorem checkTransactionSignature_reversed_ties_counterexample :
    (signedTx TransactionType.TransferAsset [inputOf 1, inputOf 2]
        [⟨[1], [10]⟩, ⟨[1], [20]⟩]).IsRechargeToSideChainTx = false ∧
      (checkTransactionSignature exampleCollaborators
        (signedTx TransactionType.TransferAsset [inputOf 1, inputOf 2]
          [⟨[1], [10]⟩, ⟨[1], [20]⟩])).2.Programs = [⟨[1], [10]⟩, ⟨[1], [20]⟩] ∧
      (checkTransactionSignature exampleCollaborators
        (signedTx TransactionType.TransferAsset [inputOf 1, inputOf 2]
          [⟨[1], [10]⟩, ⟨[1], [20]⟩]).reversePrograms).2.Programs =
        [⟨[1], [20]⟩, ⟨[1], [10]⟩] ∧
      ([⟨[1], [10]⟩, ⟨[1], [20]⟩] : List Program) ≠ [⟨[1], [20]⟩, ⟨[1], [10]⟩] := by
  decide

/-- C13, amended: for a transaction that is not a recharge and the same
transaction with its programs reversed, when hash derivation reads only the
tag, payload, inputs and outputs, `SortPrograms` leaves a permutation of the
programs that is sorted by the canonical order over their hashes and fails
exactly when a program has no hash, and `RunPrograms` accepts exactly when each
program has the hash it is paired with and its script verifies: the two are
handed to `RunPrograms` with the same sorted hashes and with sorted programs
that carry the same hashes position by position, and both are accepted or both
rejected. When
the programs all have a hash and the hashes are pairwise distinct, the sorted
programs are the same list, the results are equal, and after a successful
derivation both transactions hold the same programs. -/
theorem checkTransactionSignature_reversed_programs (c : Collaborators)
    (toCodeHash : List Nat → Option Uint168) (ok : Program → Prop)
    (txn : Transaction)
    (hr : txn.IsRechargeToSideChainTx = false)
    (hderive : ∀ t1 t2 : Transaction, t1.TxType = t2.TxType →
      t1.Payload = t2.Payload → t1.Inputs = t2.Inputs → t1.Outputs = t2.Outputs →
      c.TxProgramHashes t1 = c.TxProgramHashes t2)
    (hperm : ∀ ps, (c.SortPrograms ps).1.Perm ps)
    (hsorted : ∀ ps, (c.SortPrograms ps).2 = none →
      List.Sorted (programLe toCodeHash) (c.SortPrograms ps).1)
    (hfail : ∀ ps, (c.SortPrograms ps).2 = none ↔
      ∀ p ∈ ps, (toCodeHash p.Code).isSome = true)
    (hrun : ∀ ps hashes programs,
      c.RunPrograms (txn.withPrograms ps) hashes programs = none ↔
        List.Forall₂ (fun h p => toCodeHash p.Code = some h ∧ ok p)
          hashes programs) :
    ((checkTransactionSignature c txn).1 = none ↔
        ∃ hashes programs, pairedForRun c txn = some (hashes, programs) ∧
          c.RunPrograms (txn.withPrograms programs) hashes programs = none) ∧
      (pairedForRun c txn.reversePrograms).map (fun pr => pr.1) =
        (pairedForRun c txn).map (fun pr => pr.1) ∧
      (pairedForRun c txn.reversePrograms).map
          (fun pr => pr.2.map (fun p => toCodeHash p.Code)) =
        (pairedForRun c txn).map
          (fun pr => pr.2.map (fun p => toCodeHash p.Code)) ∧
      ((checkTransactionSignature c txn.reversePrograms).1 = none ↔
        (checkTransactionSignature c txn).1 = none) ∧
      ((∀ p ∈ txn.Programs, (toCodeHash p.Code).isSome = true) →
        (txn.Programs.map (fun p => toCodeHash p.Code)).Nodup →
        pairedForRun c txn.reversePrograms = pairedForRun c txn ∧
          (checkTransactionSignature c txn.reversePrograms).1 =
            (checkTransactionSignature c txn).1 ∧
          (∀ hashes, c.TxProgramHashes txn = Except.ok hashes →
            (checkTransactionSignature c txn.reversePrograms).2 =
              (checkTransactionSignature c txn).2)) := by
  have hrr : txn.reversePrograms.IsRechargeToSideChainTx = false := hr
  have hder : c.TxProgramHashes txn.reversePrograms = c.TxProgramHashes txn :=
    hderive _ _ rfl rfl rfl rfl
  have hrp : txn.reversePrograms.Programs = txn.Programs.reverse := rfl
  have hwp : ∀ ps, txn.reversePrograms.withPrograms ps = txn.withPrograms ps :=
    fun _ => rfl
  have hwfr : (∀ p ∈ txn.Programs.reverse, (toCodeHash p.Code).isSome = true) ↔
      ∀ p ∈ txn.Programs, (toCodeHash p.Code).isSome = true := by
    constructor
    · intro h p hp
      exact h p (List.mem_reverse.mpr hp)
    · intro h p hp
      exact h p (List.mem_reverse.mp hp)
  have hs2 : (c.SortPrograms txn.Programs.reverse).2 = none ↔
      (c.SortPrograms txn.Programs).2 = none := by
    rw [hfail, hfail, hwfr]
  have hpp : (c.SortPrograms txn.Programs.reverse).1.Perm
      (c.SortPrograms txn.Programs).1 :=
    ((hperm _).trans (List.reverse_perm _)).trans (hperm _).symm
  have hmap : (c.SortPrograms txn.Programs).2 = none →
      (c.SortPrograms txn.Programs.reverse).1.map (fun p => toCodeHash p.Code) =
        (c.SortPrograms txn.Programs).1.map (fun p => toCodeHash p.Code) := by
    intro hs
    have hs' := hs2.mpr hs
    have hw : ∀ p ∈ txn.Programs, (toCodeHash p.Code).isSome = true :=
      (hfail _).mp hs
    exact map_hash_eq_of_keys_eq toCodeHash _ _
      (fun p hp => hw p (List.mem_reverse.mp ((hperm _).mem_iff.mp hp)))
      (fun p hp => hw p ((hperm _).mem_iff.mp hp))
      (sorted_keys_eq toCodeHash _ _ hpp (hsorted _ hs') (hsorted _ hs))
  have hpair : (pairedForRun c txn.reversePrograms).map (fun pr => pr.1) =
        (pairedForRun c txn).map (fun pr => pr.1) ∧
      (pairedForRun c txn.reversePrograms).map
          (fun pr => pr.2.map (fun p => toCodeHash p.Code)) =
        (pairedForRun c txn).map
          (fun pr => pr.2.map (fun p => toCodeHash p.Code)) := by
    cases hd : c.TxProgramHashes txn with
    | error cause =>
      rw [pairedForRun_derivation_failed c txn cause hd,
        pairedForRun_derivation_failed c _ cause (hder.trans hd)]
      exact ⟨rfl, rfl⟩
    | ok hashes =>
      rw [pairedForRun_derived c txn hr hashes hd,
        pairedForRun_derived c _ hrr hashes (hder.trans hd), hrp]
      by_cases hs : (c.SortPrograms txn.Programs).2 = none
      · rw [if_pos hs, if_pos (hs2.mpr hs)]
        exact ⟨rfl, congrArg some (hmap hs)⟩
      · rw [if_neg hs, if_neg (fun h => hs (hs2.mp h))]
        exact ⟨rfl, rfl⟩
  refine ⟨checkTransactionSignature_paired c txn hr, hpair.1, hpair.2, ?_, ?_⟩
  · cases hd : c.TxProgramHashes txn with
    | error cause =>
      rw [checkTransactionSignature_derivation_failed c txn hr cause hd,
        checkTransactionSignature_derivation_failed c _ hrr cause (hder.trans hd)]
    | ok hashes =>
      rw [checkTransactionSignature_none_iff c txn hr hashes hd,
        checkTransactionSignature_none_iff c _ hrr hashes (hder.trans hd),
        hrp, hwp, hrun, hrun, forall₂_hash_iff, forall₂_hash_iff]
      constructor
      · rintro ⟨hs', hm, hok⟩
        have hs := hs2.mp hs'
        exact ⟨hs, (hmap hs).symm.trans hm,
          fun p hp => hok p (hpp.mem_iff.mpr hp)⟩
      · rintro ⟨hs, hm, hok⟩
        exact ⟨hs2.mpr hs, (hmap hs).trans hm,
          fun p hp => hok p (hpp.mem_iff.mp hp)⟩
  · intro hwf hdistinct
    have hs : (c.SortPrograms txn.Programs).2 = none := (hfail _).mpr hwf
    have hs' : (c.SortPrograms txn.Programs.reverse).2 = none := hs2.mpr hs
    haveI : IsAntisymm Program
        (fun p q => hashKey (toCodeHash p.Code) < hashKey (toCodeHash q.Code)) :=
      ⟨fun _ _ h1 h2 => absurd h2 (lt_asymm h1)⟩
    have hnd := hashKey_nodup toCodeHash txn.Programs hwf hdistinct
    have h1 : (c.SortPrograms txn.Programs.reverse).1 =
        (c.SortPrograms txn.Programs).1 :=
      List.eq_of_perm_of_sorted hpp
        (insertionSort_strict toCodeHash txn.Programs _ hnd
          ((hperm _).trans (List.reverse_perm _)) (hsorted _ hs'))
        (insertionSort_strict toCodeHash txn.Programs _ hnd (hperm _)
          (hsorted _ hs))
    have hsp : c.SortPrograms txn.reversePrograms.Programs =
        c.SortPrograms txn.Programs := by
      rw [hrp]
      exact Prod.ext h1 (hs'.trans hs.symm)
    have hpeq : pairedForRun c txn.reversePrograms = pairedForRun c txn := by
      cases hd : c.TxProgramHashes txn with
      | error cause =>
        rw [pairedForRun_derivation_failed c txn cause hd,
          pairedForRun_derivation_failed c _ cause (hder.trans hd)]
      | ok hashes =>
        rw [pairedForRun_derived c txn hr hashes hd,
          pairedForRun_derived c _ hrr hashes (hder.trans hd), hsp]
    refine ⟨hpeq, ?_, ?_⟩
    · cases hd : c.TxProgramHashes txn with
      | error cause =>
        rw [checkTransactionSignature_derivation_failed c txn hr cause hd,
          checkTransactionSignature_derivation_failed c _ hrr cause (hder.trans hd)]
      | ok hashes =>
        rw [checkTransactionSignature_derived c txn hr hashes hd,
          checkTransactionSignature_derived c _ hrr hashes (hder.trans hd),
          hsp, hwp]
    · intro hashes hd
      rw [checkTransactionSignature_derived c txn hr hashes hd,
        checkTransactionSignature_derived c _ hrr hashes (hder.trans hd),
        hsp, hwp]

/-- The transfer whose two programs have the same hash is rejected in either
order of submission, and the sorted programs of the two submissions carry the
same hashes position by position. -/
theorem checkTransactionSignature_reversed_programs_witness :
    ((checkTransactionSignature exampleCollaborators
        (signedTx TransactionType.TransferAsset [inputOf 1, inputOf 2]
          [⟨[1], [10]⟩, ⟨[1], [20]⟩]).reversePrograms).1 = none ↔
      (checkTransactionSignature exampleCollaborators
        (signedTx TransactionType.TransferAsset [inputOf 1, inputOf 2]
          [⟨[1], [10]⟩, ⟨[1], [20]⟩])).1 = none) ∧
      (checkTransactionSignature exampleCollaborators
        (signedTx TransactionType.TransferAsset [inputOf 1, inputOf 2]
          [⟨[1], [10]⟩, ⟨[1], [20]⟩])).1 ≠ none :=
  ⟨(checkTransactionSignature_reversed_programs exampleCollaborators
      exampleCodeHash (fun _ => True)
      (signedTx TransactionType.TransferAsset [inputOf 1, inputOf 2]
        [⟨[1], [10]⟩, ⟨[1], [20]⟩])
      rfl
      (fun t1 t2 _ _ hi _ => exampleCollaborators_derive t1 t2 hi)
      (fun ps => SortPrograms_perm exampleCodeHash ps)
      (fun ps hs => SortPrograms_sorted exampleCodeHash ps hs)
      (fun ps => SortPrograms_fail_iff exampleCodeHash ps)
      (fun ps hashes programs => exampleCollaborators_run _ hashes programs)).2.2.2.1,
    by decide⟩

/-- C14 as stated fails: the signature check sorts the programs of the
transaction in place, so a transfer submitted with its two programs out of
order holds them in the other order afterwards. -/
theorem checkTransactionSignature_reorders_counterexample :
    (signedTx TransactionType.TransferAsset [inputOf 1, inputOf 2]
        [⟨[2], [20]⟩, ⟨[1], [10]⟩]).Programs = [⟨[2], [20]⟩, ⟨[1], [10]⟩] ∧
      (checkTransactionSignature exampleCollaborators
        (signedTx TransactionType.TransferAsset [inputOf 1, inputOf 2]
          [⟨[2], [20]⟩, ⟨[1], [10]⟩])).2.Programs = [⟨[1], [10]⟩, ⟨[2], [20]⟩] ∧
      ([⟨[2], [20]⟩, ⟨[1], [10]⟩] : List Program) ≠ [⟨[1], [10]⟩, ⟨[2], [20]⟩] := by
  decide

theorem checkTransactionPayloadM_run (host : Host) (txn : Transaction) :
    (checkTransactionPayloadM host).run txn =
      (checkTransactionPayload host txn).map (fun err => (err, txn)) := by
  unfold checkTransactionPayloadM checkTransactionPayload
  simp only [StateT.run_bind, StateT.run_get, Option.pure_def, Option.bind_eq_bind,
    Option.some_bind]
  split
  · split_ifs
    · rfl
    · split <;> simp_all
      · rfl
  all_goals rfl

theorem checkTransactionOutputM_run (host : Host) (v : validator)
    (txn : Transaction) :
    (checkTransactionOutputM host v).run txn =
      some (checkTransactionOutput host v txn, txn) := by
  unfold checkTransactionOutputM checkTransactionOutput
  simp only [StateT.run_bind, StateT.run_get, Option.pure_def, Option.bind_eq_bind,
    Option.some_bind]
  split_ifs
  · rfl
  · split
    · rfl
    · split_ifs <;> rfl
  · rfl
  · rfl

theorem checkTransactionSignatureM_routines (c : Collaborators) (txn : Transaction) :
    (checkTransactionSignatureM c.routines).run txn =
      some (checkTransactionSignature c txn) := by
  unfold checkTransactionSignatureM checkTransactionSignature Collaborators.routines
  simp only [StateT.run_bind, StateT.run_get, Option.pure_def, Option.bind_eq_bind,
    Option.some_bind]
  split_ifs
  · simp only [StateT.run_bind, StateT.run_get, StateT.run_pure, Option.pure_def,
      Option.bind_eq_bind, Option.some_bind]
    cases c.VerifyTransaction txn <;> rfl
  · simp only [StateT.run_bind, StateT.run_get, StateT.run_pure, Option.pure_def,
      Option.bind_eq_bind, Option.some_bind]
    cases c.TxProgramHashes txn with
    | error err => rfl
    | ok hashes =>
      simp only [StateT.run_bind, StateT.run_get, StateT.run_pure, StateT.run_modify,
        Option.pure_def, Option.bind_eq_bind, Option.some_bind]
      cases (c.SortPrograms txn.Programs).2 with
      | some err => rfl
      | none =>
        simp only [StateT.run_bind, StateT.run_get, StateT.run_pure,
          Option.pure_def, Option.bind_eq_bind, Option.some_bind]
        cases c.RunPrograms _ _ _ <;> rfl

theorem sameButPrograms_trans (a b c : Transaction) (h1 : sameButPrograms a b)
    (h2 : sameButPrograms b c) : sameButPrograms a c :=
  ⟨h1.1.trans h2.1, h1.2.1.trans h2.2.1, h1.2.2.1.trans h2.2.2.1,
    h1.2.2.2.trans h2.2.2.2⟩

theorem checkTransactionSignatureM_state (w : Routines) (txn : Transaction)
    (r : Option String × Transaction)
    (h : (checkTransactionSignatureM w).run txn = some r) :
    (txn.IsRechargeToSideChainTx = true ∧
        ∃ e, w.VerifyTransaction.run txn = some (e, r.2)) ∨
      (txn.IsRechargeToSideChainTx = false ∧
        ∃ cause, w.TxProgramHashes.run txn = some (Except.error cause, r.2)) ∨
      (txn.IsRechargeToSideChainTx = false ∧
        ∃ hashes s1, w.TxProgramHashes.run txn = some (Except.ok hashes, s1) ∧
          ((w.SortPrograms s1.Programs).2 ≠ none ∧
              r.2 = s1.withPrograms (w.SortPrograms s1.Programs).1 ∨
            (w.SortPrograms s1.Programs).2 = none ∧
              ∃ e, (w.RunPrograms (w.SortProgramHashes hashes)).run
                (s1.withPrograms (w.SortPrograms s1.Programs).1) = some (e, r.2))) := by
  unfold checkTransactionSignatureM at h
  simp only [StateT.run_bind, StateT.run_get, Option.pure_def, Option.bind_eq_bind,
    Option.some_bind] at h
  cases hr : txn.IsRechargeToSideChainTx with
  | true =>
    left
    refine ⟨rfl, ?_⟩
    simp only [hr, if_true, StateT.run_bind, Option.bind_eq_bind] at h
    cases hv : w.VerifyTransaction.run txn with
    | none => rw [hv] at h; cases h
    | some res =>
      obtain ⟨e, s1⟩ := res
      rw [hv] at h
      cases e with
      | none =>
        simp only [Option.some_bind] at h
        cases h
        exact ⟨none, rfl⟩
      | some err =>
        simp only [Option.some_bind] at h
        cases h
        exact ⟨some err, rfl⟩
  | false =>
    right
    simp only [hr, Bool.false_eq_true, if_false, StateT.run_bind,
      Option.bind_eq_bind] at h
    cases hd : w.TxProgramHashes.run txn with
    | none => rw [hd] at h; cases h
    | some res =>
      obtain ⟨d, s1⟩ := res
      rw [hd] at h
      cases d with
      | error cause =>
        left
        simp only [Option.some_bind] at h
        cases h
        exact ⟨rfl, cause, rfl⟩
      | ok hashes =>
        right
        refine ⟨rfl, hashes, s1, rfl, ?_⟩
        simp only [Option.some_bind, StateT.run_bind, StateT.run_get,
          StateT.run_modify, Option.pure_def, Option.bind_eq_bind] at h
        cases hs : (w.SortPrograms s1.Programs).2 with
        | some err =>
          left
          rw [hs] at h
          simp only [Option.some_bind] at h
          cases h
          exact ⟨by simp, rfl⟩
        | none =>
          right
          refine ⟨rfl, ?_⟩
          rw [hs] at h
          simp only [StateT.run_bind, Option.bind_eq_bind] at h
          cases hrun : (w.RunPrograms (w.SortProgramHashes hashes)).run
              (s1.withPrograms (w.SortPrograms s1.Programs).1) with
          | none => rw [hrun] at h; cases h
          | some res2 =>
            obtain ⟨e, s2⟩ := res2
            rw [hrun] at h
            cases e with
            | none =>
              simp only [Option.some_bind] at h
              cases h
              exact ⟨none, rfl⟩
            | some err =>
              simp only [Option.some_bind] at h
              cases h
              exact ⟨some err, rfl⟩

/-- C14, amended: the payload check and the output check leave the
transaction behind the pointer exactly as it was. The signature check writes
nothing of its own except through `SortPrograms`: when the routines it hands
the pointer to leave tag, payload, inputs and outputs as they are, so does the
signature check; when they leave the whole transaction as it is, the
transaction afterwards is the one before, or the one before with its programs
as `SortPrograms` left them, and these are a reordering of the programs before
when `SortPrograms` only permutes. With routines that only read, the
transaction is unchanged for a recharge and when hash derivation fails, and
otherwise holds the programs in the order `SortPrograms` gave them. -/
theorem validation_frame (host : Host) (v : validator) (w : Routines)
    (c : Collaborators) (txn : Transaction) :
    (checkTransactionPayloadM host).run txn =
        (checkTransactionPayload host txn).map (fun err => (err, txn)) ∧
      (checkTransactionOutputM host v).run txn =
        some (checkTransactionOutput host v txn, txn) ∧
      ((∀ s r, w.VerifyTransaction.run s = some r → sameButPrograms r.2 s) →
        (∀ s r, w.TxProgramHashes.run s = some r → sameButPrograms r.2 s) →
        (∀ hashes s r, (w.RunPrograms hashes).run s = some r →
          sameButPrograms r.2 s) →
        ∀ r, (checkTransactionSignatureM w).run txn = some r →
          sameButPrograms r.2 txn) ∧
      ((∀ s r, w.VerifyTransaction.run s = some r → r.2 = s) →
        (∀ s r, w.TxProgramHashes.run s = some r → r.2 = s) →
        (∀ hashes s r, (w.RunPrograms hashes).run s = some r → r.2 = s) →
        ∀ r, (checkTransactionSignatureM w).run txn = some r →
          (r.2 = txn ∨ r.2 = txn.withPrograms (w.SortPrograms txn.Programs).1) ∧
            ((∀ ps, (w.SortPrograms ps).1.Perm ps) →
              r.2.Programs.Perm txn.Programs)) ∧
      (checkTransactionSignatureM c.routines).run txn =
        some (checkTransactionSignature c txn) ∧
      (txn.IsRechargeToSideChainTx = true →
        (checkTransactionSignature c txn).2 = txn) ∧
      (∀ cause, c.TxProgramHashes txn = Except.error cause →
        (checkTransactionSignature c txn).2 = txn) ∧
      (txn.IsRechargeToSideChainTx = false →
        ∀ hashes, c.TxProgramHashes txn = Except.ok hashes →
        (checkTransactionSignature c txn).2 =
          txn.withPrograms (c.SortPrograms txn.Programs).1) := by
  refine ⟨checkTransactionPayloadM_run host txn, checkTransactionOutputM_run host v txn,
    ?_, ?_, checkTransactionSignatureM_routines c txn, ?_, ?_, ?_⟩
  · intro hv hd hrun r h
    have hwp : ∀ (s : Transaction) ps, sameButPrograms (s.withPrograms ps) s :=
      fun _ _ => ⟨rfl, rfl, rfl, rfl⟩
    rcases checkTransactionSignatureM_state w txn r h with
      ⟨_, e, he⟩ | ⟨_, cause, hc⟩ | ⟨_, hashes, s1, h1, h2⟩
    · exact hv txn (e, r.2) he
    · exact hd txn (Except.error cause, r.2) hc
    · have hs1 : sameButPrograms s1 txn := hd txn (Except.ok hashes, s1) h1
      rcases h2 with ⟨_, h3⟩ | ⟨_, e, h3⟩
      · rw [h3]
        exact sameButPrograms_trans _ _ _ (hwp _ _) hs1
      · exact sameButPrograms_trans _ _ _
          (sameButPrograms_trans _ _ _ (hrun _ _ (e, r.2) h3) (hwp _ _)) hs1
  · intro hv hd hrun r h
    have key : r.2 = txn ∨ r.2 = txn.withPrograms (w.SortPrograms txn.Programs).1 := by
      rcases checkTransactionSignatureM_state w txn r h with
        ⟨_, e, he⟩ | ⟨_, cause, hc⟩ | ⟨_, hashes, s1, h1, h2⟩
      · exact Or.inl (hv txn (e, r.2) he)
      · exact Or.inl (hd txn (Except.error cause, r.2) hc)
      · have hs1 : s1 = txn := hd txn (Except.ok hashes, s1) h1
        subst hs1
        rcases h2 with ⟨_, h3⟩ | ⟨_, e, h3⟩
        · exact Or.inr h3
        · exact Or.inr (hrun _ _ (e, r.2) h3)
    refine ⟨key, ?_⟩
    intro hp
    rcases key with h1 | h1
    · rw [h1]
    · rw [h1]
      exact hp txn.Programs
  · intro hr
    rw [checkTransactionSignature_recharge c txn hr]
  · intro cause hd
    cases hr : txn.IsRechargeToSideChainTx with
    | true => rw [checkTransactionSignature_recharge c txn hr]
    | false => rw [checkTransactionSignature_derivation_failed c txn hr cause hd]
  · intro hr hashes hd
    rw [checkTransactionSignature_derived c txn hr hashes hd]

/-- A transfer submitted with its two programs out of order is accepted by the
signature check and holds the programs in sorted order afterwards, its inputs
being what they were. -/
theorem validation_frame_witness :
    (checkTransactionSignatureM exampleCollaborators.routines).run
        (signedTx TransactionType.TransferAsset [inputOf 1, inputOf 2]
          [⟨[2], [20]⟩, ⟨[1], [10]⟩]) =
      some (none, signedTx TransactionType.TransferAsset [inputOf 1, inputOf 2]
        [⟨[1], [10]⟩, ⟨[2], [20]⟩]) :=
  (validation_frame amd64Host exampleValidator exampleCollaborators.routines
    exampleCollaborators
    (signedTx TransactionType.TransferAsset [inputOf 1, inputOf 2]
      [⟨[2], [20]⟩, ⟨[1], [10]⟩])).2.2.2.2.1.trans
    (congrArg some (by decide))

/-! ## Claims about the registry and the precision call -/

/-- C15: in the registry built by `NewValidator` the output check and the
payload check are the sanity functions, in that order, and the signature check
is the context function; validating a transaction returns the error of the
first of the three checks that fails, or no error, and the signature check
runs exactly when the output check and the payload check both return no
error. -/
theorem NewValidator_validation (host : Host) (cfg : Config) (c : Collaborators)
    (txn : Transaction) :
    (NewValidator host cfg c).sanityFuncs.map (fun f => f.Name) =
        [FuncName.CheckTransactionOutput, FuncName.CheckTransactionPayload] ∧
      (NewValidator host cfg c).contextFuncs.map (fun f => f.Name) =
        [FuncName.CheckTransactionSignature] ∧
      (validateTransaction (NewValidator host cfg c) txn).map (fun r => r.2.1) =
        (match checkTransactionOutput host ⟨cfg.ElaAssetId, cfg.Foundation⟩ txn with
          | some err => some (some err)
          | none =>
            match checkTransactionPayload host txn with
            | none => none
            | some (some err) => some (some err)
            | some none => some (checkTransactionSignature c txn).1) ∧
      (∀ r, validateTransaction (NewValidator host cfg c) txn = some r →
        (FuncName.CheckTransactionSignature ∈ r.1 ↔
          checkTransactionOutput host ⟨cfg.ElaAssetId, cfg.Foundation⟩ txn = none ∧
            checkTransactionPayload host txn = some none)) := by
  refine ⟨rfl, rfl, ?_, ?_⟩
  · cases ho : checkTransactionOutput host ⟨cfg.ElaAssetId, cfg.Foundation⟩ txn with
    | some err =>
      simp [validateTransaction, NewValidator, RegisterContextFunc,
        RegisterSanityFunc, baseValidator, runFuncs, outputCheck, ho]
    | none =>
      cases hp : checkTransactionPayload host txn with
      | none =>
        simp [validateTransaction, NewValidator, RegisterContextFunc,
          RegisterSanityFunc, baseValidator, runFuncs, outputCheck, payloadCheck,
          ho, hp]
      | some res =>
        cases res with
        | some err =>
          simp [validateTransaction, NewValidator, RegisterContextFunc,
            RegisterSanityFunc, baseValidator, runFuncs, outputCheck, payloadCheck,
            ho, hp]
        | none =>
          generalize hsig : checkTransactionSignature c txn = sig
          obtain ⟨e, t⟩ := sig
          cases e <;>
            simp [validateTransaction, NewValidator, RegisterContextFunc,
              RegisterSanityFunc, baseValidator, runFuncs, outputCheck,
              payloadCheck, signatureCheck, ho, hp, hsig]
  · intro r hrun
    cases ho : checkTransactionOutput host ⟨cfg.ElaAssetId, cfg.Foundation⟩ txn with
    | some err =>
      simp [validateTransaction, NewValidator, RegisterContextFunc,
        RegisterSanityFunc, baseValidator, runFuncs, outputCheck, ho] at hrun
      subst hrun
      simp
    | none =>
      cases hp : checkTransactionPayload host txn with
      | none =>
        simp [validateTransaction, NewValidator, RegisterContextFunc,
          RegisterSanityFunc, baseValidator, runFuncs, outputCheck, payloadCheck,
          ho, hp] at hrun
      | some res =>
        cases res with
        | some err =>
          simp [validateTransaction, NewValidator, RegisterContextFunc,
            RegisterSanityFunc, baseValidator, runFuncs, outputCheck, payloadCheck,
            ho, hp] at hrun
          subst hrun
          simp
        | none =>
          generalize hsig : checkTransactionSignature c txn = sig at hrun
          obtain ⟨e, t⟩ := sig
          cases e <;>
            simp [validateTransaction, NewValidator, RegisterContextFunc,
              RegisterSanityFunc, baseValidator, runFuncs, outputCheck,
              payloadCheck, signatureCheck, ho, hp, hsig] at hrun <;>
            subst hrun <;> simp

theorem checkAmountPrecise_in_range (host : Host) (amount : Fixed64)
    (precision : Nat) (hmax : host.MaxPrecision ≤ 18)
    (hle : precision ≤ host.MaxPrecision) :
    byteSub host.MaxPrecision precision = host.MaxPrecision - precision ∧
      host.MaxPrecision - precision ≤ host.MaxPrecision ∧
      pow10Int64 host (byteSub host.MaxPrecision precision) =
        10 ^ (host.MaxPrecision - precision) ∧
      0 < pow10Int64 host (byteSub host.MaxPrecision precision) ∧
      isInt64 (pow10Int64 host (byteSub host.MaxPrecision precision)) ∧
      goMod amount (pow10Int64 host (byteSub host.MaxPrecision precision)) ≠ none ∧
      checkAmountPrecise host amount precision host.MaxPrecision ≠ none := by
  have hd : host.MaxPrecision - precision ≤ 18 := by omega
  have hb := byteSub_of_le host.MaxPrecision precision hle hd
  have hpow : pow10Int64 host (byteSub host.MaxPrecision precision) =
      10 ^ (host.MaxPrecision - precision) := by
    rw [hb, pow10Int64_small host _ hd]
  have hpos : (0 : Int) < 10 ^ (host.MaxPrecision - precision) := by
    positivity
  have hfit : (10 : Int) ^ (host.MaxPrecision - precision) ≤ 10 ^ 18 :=
    pow_le_pow_right₀ (by norm_num) hd
  refine ⟨hb, by omega, hpow, by rw [hpow]; exact hpos, ?_, ?_, ?_⟩
  · rw [hpow]
    constructor
    · have : (-2 : Int) ^ 63 ≤ 0 := by norm_num
      omega
    · have : (10 : Int) ^ 18 < 2 ^ 63 := by norm_num
      omega
  · rw [hpow]
    simp [goMod, ne_of_gt hpos]
  · rw [checkAmountPrecise_small host amount precision host.MaxPrecision hle hd]
    simp

theorem checkTransactionPayloadCalls_registerAsset (host : Host) (txn : Transaction)
    (pld : PayloadRegisterAsset)
    (hp : txn.Payload = some (Payload.RegisterAsset pld)) :
    checkTransactionPayloadCalls host txn =
      if pld.Asset.Precision < host.MinPrecision ∨
          pld.Asset.Precision > host.MaxPrecision then
        ([], checkTransactionPayload host txn)
      else
        ([(pld.Amount, pld.Asset.Precision, host.MaxPrecision)],
          checkTransactionPayload host txn) := by
  unfold checkTransactionPayloadCalls checkTransactionPayload checkAmountPreciseCall
  rw [hp]
  by_cases hg : pld.Asset.Precision < host.MinPrecision ∨
      pld.Asset.Precision > host.MaxPrecision
  · simp only [hg, if_true]
  · simp only [hg, if_false]
    cases checkAmountPrecise host pld.Amount pld.Asset.Precision host.MaxPrecision with
    | none => rfl
    | some b => cases b <;> rfl

theorem checkTransactionPayloadCalls_other (host : Host) (txn : Transaction)
    (hp : ∀ pld, txn.Payload ≠ some (Payload.RegisterAsset pld)) :
    checkTransactionPayloadCalls host txn = ([], checkTransactionPayload host txn) ∧
      checkTransactionPayload host txn ≠ none := by
  unfold checkTransactionPayloadCalls checkTransactionPayload
  cases hpl : txn.Payload with
  | none => exact ⟨rfl, by simp⟩
  | some pl =>
    cases pl with
    | RegisterAsset pld => exact absurd hpl (hp pld)
    | _ => exact ⟨rfl, by simp⟩

/-- C16: every call of `checkAmountPrecise` that `checkTransactionPayload`
makes has `MaxPrecision` as maximum and a declared precision at most
`MaxPrecision`, so that the byte subtraction does not wrap, the exponent lies
between 0 and `MaxPrecision`, the divisor is the positive power of ten of that
exponent and fits in an `int64`, and the modulo does not panic; hence the
payload check never panics. The call is made for every RegisterAsset payload
whose precision is in range. The imported constant `MaxPrecision` is any value
up to 18 (it is 8 on the chain). -/
theorem checkAmountPrecise_call_safe (host : Host) (txn : Transaction)
    (hmax : host.MaxPrecision ≤ 18) :
    (checkTransactionPayloadCalls host txn).2 = checkTransactionPayload host txn ∧
      checkTransactionPayload host txn ≠ none ∧
      (∀ pld, txn.Payload = some (Payload.RegisterAsset pld) →
        host.MinPrecision ≤ pld.Asset.Precision →
        pld.Asset.Precision ≤ host.MaxPrecision →
        (checkTransactionPayloadCalls host txn).1 =
          [(pld.Amount, pld.Asset.Precision, host.MaxPrecision)]) ∧
      (∀ amount precision assetPrecision,
        (amount, precision, assetPrecision) ∈ (checkTransactionPayloadCalls host txn).1 →
        assetPrecision = host.MaxPrecision ∧
          precision ≤ host.MaxPrecision ∧
          byteSub assetPrecision precision = assetPrecision - precision ∧
          assetPrecision - precision ≤ host.MaxPrecision ∧
          pow10Int64 host (byteSub assetPrecision precision) =
            10 ^ (assetPrecision - precision) ∧
          0 < pow10Int64 host (byteSub assetPrecision precision) ∧
          isInt64 (pow10Int64 host (byteSub assetPrecision precision)) ∧
          goMod amount (pow10Int64 host (byteSub assetPrecision precision)) ≠ none ∧
          checkAmountPrecise host amount precision assetPrecision ≠ none) := by
  by_cases hreg : ∃ pld, txn.Payload = some (Payload.RegisterAsset pld)
  · obtain ⟨pld, hp⟩ := hreg
    have hcalls := checkTransactionPayloadCalls_registerAsset host txn pld hp
    by_cases hg : pld.Asset.Precision < host.MinPrecision ∨
        pld.Asset.Precision > host.MaxPrecision
    · rw [if_pos hg] at hcalls
      have hres : checkTransactionPayload host txn = some (some errInvalidPrecision) := by
        unfold checkTransactionPayload
        rw [hp]
        simp only [hg, if_true]
      refine ⟨by rw [hcalls], by rw [hres]; simp, ?_, ?_⟩
      · intro pld2 hp2 hmin hle
        rw [hp] at hp2
        cases hp2
        omega
      · intro amount precision assetPrecision hmem
        rw [hcalls] at hmem
        cases hmem
    · rw [if_neg hg] at hcalls
      have hle : pld.Asset.Precision ≤ host.MaxPrecision := by omega
      have hfacts := checkAmountPrecise_in_range host pld.Amount pld.Asset.Precision
        hmax hle
      have hres : checkTransactionPayload host txn ≠ none := by
        unfold checkTransactionPayload
        rw [hp]
        simp only [hg, if_false]
        have hsmall := checkAmountPrecise_small host pld.Amount pld.Asset.Precision
          host.MaxPrecision hle (by omega)
        rw [hsmall]
        split <;> simp_all
      refine ⟨by rw [hcalls], hres, ?_, ?_⟩
      · intro pld2 hp2 _ _
        rw [hp] at hp2
        cases hp2
        rw [hcalls]
      · intro amount precision assetPrecision hmem
        rw [hcalls] at hmem
        simp only [List.mem_singleton, Prod.mk.injEq] at hmem
        obtain ⟨ha, hpr, hap⟩ := hmem
        subst ha hpr hap
        exact ⟨rfl, hle, hfacts⟩
  · have hother := checkTransactionPayloadCalls_other host txn
      (fun pld hp => hreg ⟨pld, hp⟩)
    refine ⟨by rw [hother.1], hother.2, ?_, ?_⟩
    · intro pld hp
      exact absurd ⟨pld, hp⟩ hreg
    · intro amount precision assetPrecision hmem
      rw [hother.1] at hmem
      cases hmem

/-- On a host with `MaxPrecision = 8`, a RegisterAsset transaction declaring
precision 3 makes the one call `checkAmountPrecise(1, 3, 8)`, whose exponent
is 5 and whose divisor is 100000, and does not panic. -/
theorem checkAmountPrecise_call_safe_witness :
    (checkTransactionPayloadCalls amd64Host
        (txOf TransactionType.RegisterAsset
          (some (Payload.RegisterAsset ⟨⟨"a", "b", 3, 0, 0⟩, 1, hashOf 0x21⟩))
          [])).1 = [(1, 3, 8)] ∧
      byteSub 8 3 = 8 - 3 ∧
      pow10Int64 amd64Host (byteSub 8 3) = 10 ^ (8 - 3) ∧
      checkTransactionPayload amd64Host
        (txOf TransactionType.RegisterAsset
          (some (Payload.RegisterAsset ⟨⟨"a", "b", 3, 0, 0⟩, 1, hashOf 0x21⟩))
          []) ≠ none :=
  ⟨(checkAmountPrecise_call_safe amd64Host
      (txOf TransactionType.RegisterAsset
        (some (Payload.RegisterAsset ⟨⟨"a", "b", 3, 0, 0⟩, 1, hashOf 0x21⟩)) [])
      (by decide)).2.2.1 ⟨⟨"a", "b", 3, 0, 0⟩, 1, hashOf 0x21⟩ rfl
      (by decide) (by decide),
    ((checkAmountPrecise_call_safe amd64Host
      (txOf TransactionType.RegisterAsset
        (some (Payload.RegisterAsset ⟨⟨"a", "b", 3, 0, 0⟩, 1, hashOf 0x21⟩)) [])
      (by decide)).2.2.2 1 3 8 (by decide)).2.2.1,
    ((checkAmountPrecise_call_safe amd64Host
      (txOf TransactionType.RegisterAsset
        (some (Payload.RegisterAsset ⟨⟨"a", "b", 3, 0, 0⟩, 1, hashOf 0x21⟩)) [])
      (by decide)).2.2.2 1 3 8 (by decide)).2.2.2.2.1,
    (checkAmountPrecise_call_safe amd64Host
      (txOf TransactionType.RegisterAsset
        (some (Payload.RegisterAsset ⟨⟨"a", "b", 3, 0, 0⟩, 1, hashOf 0x21⟩)) [])
      (by decide)).2.1⟩

/-! ## Order and destinations of the outputs -/

theorem ordinaryBranch_eq (host : Host) (v : validator)
    (txn : Transaction) (hcb : txn.IsCoinBaseTx = false)
    (hlen : 1 ≤ txn.Outputs.length) :
    checkTransactionOutput host v txn = ordinaryOutputs host v txn.Outputs := by
  have hl : ¬ txn.Outputs.length < 1 := by omega
  simp only [checkTransactionOutput, hcb, hl, if_false, Bool.false_eq_true]

theorem ordinaryBranch_none_iff (host : Host) (v : validator)
    (txn : Transaction) (hcb : txn.IsCoinBaseTx = false) :
    checkTransactionOutput host v txn = none ↔
      1 ≤ txn.Outputs.length ∧
        ∀ o ∈ txn.Outputs, o.AssetID = v.systemAssetID ∧
          checkOutputProgramHash host o.ProgramHash = true := by
  by_cases hlen : 1 ≤ txn.Outputs.length
  · rw [ordinaryBranch_eq host v txn hcb hlen,
      ordinaryOutputs_eq_none_iff]
    simp [hlen]
  · have hl : txn.Outputs.length < 1 := by omega
    simp [checkTransactionOutput, hcb, hl, hlen]

theorem totalValue_perm (outs outs2 : List Output) (hperm : outs.Perm outs2) :
    totalValue outs = totalValue outs2 := by
  unfold totalValue
  exact (hperm.map _).sum_eq

theorem foundationValue_perm (v : validator) (outs outs2 : List Output)
    (hperm : outs.Perm outs2) :
    foundationValue v outs = foundationValue v outs2 := by
  unfold foundationValue
  exact ((hperm.filter _).map _).sum_eq

theorem checkTransactionOutput_coinbase_cases (host : Host) (v : validator)
    (txn : Transaction) (hcb : txn.IsCoinBaseTx = true) :
    checkTransactionOutput host v txn =
      if txn.Outputs.length < 2 then some errInsufficientOutputs
      else if ∃ o ∈ txn.Outputs, o.AssetID ≠ v.systemAssetID then
        some errInvalidAssetIDCoinbase
      else if wrap64 (foundationValue v txn.Outputs) <
          thirtyPercent (wrap64 (totalValue txn.Outputs)) then
        some errInsufficientFoundationReward
      else none := by
  by_cases hlen : txn.Outputs.length < 2
  · simp [checkTransactionOutput, hcb, hlen]
  · by_cases hbad : ∃ o ∈ txn.Outputs, o.AssetID ≠ v.systemAssetID
    · rw [if_neg hlen, if_pos hbad]
      simp only [checkTransactionOutput, hcb, hlen, if_true, if_false,
        coinbaseOutputs_error v txn.Outputs hbad 0 0]
    · rw [if_neg hlen, if_neg hbad]
      have hasset : ∀ o ∈ txn.Outputs, o.AssetID = v.systemAssetID := by
        intro o ho
        by_contra hne
        exact hbad ⟨o, ho, hne⟩
      exact checkTransactionOutput_coinbase_eq host v txn hcb (by omega) hasset

theorem coinbaseOutputs_congr (v : validator) (outs outs2 : List Output)
    (hagree : List.Forall₂
      (fun o o2 : Output => o.AssetID = o2.AssetID ∧ o.Value = o2.Value ∧
        (o.ProgramHash = v.foundation ↔ o2.ProgramHash = v.foundation))
      outs outs2) (t f : Fixed64) :
    coinbaseOutputs v outs t f = coinbaseOutputs v outs2 t f := by
  induction hagree generalizing t f with
  | nil => rfl
  | cons h _ ih =>
    obtain ⟨ha, hv, hf⟩ := h
    simp only [coinbaseOutputs, ha, hv, hf]
    split_ifs
    · rfl
    · exact ih _ _
    · exact ih _ _

/-- C17: for a non-coinbase transaction, the first output that breaks a rule
decides the error: InvalidAssetID when its asset is not the system asset,
whether or not its destination is recognized, and InvalidDestination
otherwise; replacing the outputs after it by any others gives the same
error. -/
theorem checkTransactionOutput_first_violation (host : Host) (v : validator)
    (txn : Transaction) (hcb : txn.IsCoinBaseTx = false)
    (pre : List Output) (o : Output) (post : List Output)
    (hsplit : txn.Outputs = pre ++ o :: post)
    (hpre : ∀ x ∈ pre, x.AssetID = v.systemAssetID ∧
      checkOutputProgramHash host x.ProgramHash = true)
    (hbad : o.AssetID ≠ v.systemAssetID ∨
      checkOutputProgramHash host o.ProgramHash = false) :
    checkTransactionOutput host v txn =
        some (if o.AssetID ≠ v.systemAssetID then errInvalidAssetID
          else errInvalidDestination) ∧
      (∀ later : List Output,
        checkTransactionOutput host v
            ⟨txn.TxType, txn.Payload, txn.Inputs, pre ++ o :: later, txn.Programs⟩ =
          checkTransactionOutput host v txn) := by
  have main : ∀ later : List Output,
      ordinaryOutputs host v (pre ++ o :: later) =
        some (if o.AssetID ≠ v.systemAssetID then errInvalidAssetID
          else errInvalidDestination) := by
    intro later
    have h := ordinaryOutputs_first_violation host v pre o later hpre
    by_cases ha : o.AssetID = v.systemAssetID
    · have hd : checkOutputProgramHash host o.ProgramHash = false := by
        rcases hbad with h1 | h1
        · exact absurd ha h1
        · exact h1
      rw [h.2 ha hd]
      simp [ha]
    · rw [h.1 ha]
      simp [ha]
  have hlen : 1 ≤ txn.Outputs.length := by
    rw [hsplit, List.length_append, List.length_cons]
    omega
  have hrun : checkTransactionOutput host v txn =
      ordinaryOutputs host v (pre ++ o :: post) := by
    rw [ordinaryBranch_eq host v txn hcb hlen, hsplit]
  constructor
  · rw [hrun, main post]
  · intro later
    have hcb2 : (⟨txn.TxType, txn.Payload, txn.Inputs, pre ++ o :: later,
        txn.Programs⟩ : Transaction).IsCoinBaseTx = false := hcb
    have hlen2 : 1 ≤ (⟨txn.TxType, txn.Payload, txn.Inputs, pre ++ o :: later,
        txn.Programs⟩ : Transaction).Outputs.length := by
      show 1 ≤ (pre ++ o :: later).length
      rw [List.length_append, List.length_cons]
      omega
    rw [hrun, main post, ordinaryBranch_eq host v _ hcb2 hlen2]
    exact main later

/-- A transfer whose second output has a foreign asset and an unrecognized
destination is rejected with InvalidAssetID, before the third output is
looked at. -/
theorem checkTransactionOutput_first_violation_witness :
    checkTransactionOutput amd64Host exampleValidator
      (txOf TransactionType.TransferAsset none
        [outputOf 1 5 0x21, outputOf 2 7 0xFF, outputOf 1 9 0xFF])
      = some errInvalidAssetID :=
  (checkTransactionOutput_first_violation amd64Host exampleValidator
    (txOf TransactionType.TransferAsset none
      [outputOf 1 5 0x21, outputOf 2 7 0xFF, outputOf 1 9 0xFF]) rfl
    [outputOf 1 5 0x21] (outputOf 2 7 0xFF) [outputOf 1 9 0xFF] rfl
    (by decide) (Or.inl (by decide))).1.trans (by decide)

/-- C18: two transactions of the same coinbase status whose outputs are a
permutation of each other are both accepted or both rejected by
`checkTransactionOutput`, and for coinbase transactions the result is the same
altogether. -/
theorem checkTransactionOutput_perm (host : Host) (v : validator)
    (txn txn2 : Transaction) (hperm : txn.Outputs.Perm txn2.Outputs)
    (hcb : txn.IsCoinBaseTx = txn2.IsCoinBaseTx) :
    (checkTransactionOutput host v txn = none ↔
        checkTransactionOutput host v txn2 = none) ∧
      (txn.IsCoinBaseTx = true →
        checkTransactionOutput host v txn = checkTransactionOutput host v txn2) := by
  have hcoin : txn.IsCoinBaseTx = true →
      checkTransactionOutput host v txn = checkTransactionOutput host v txn2 := by
    intro h1
    have h2 : txn2.IsCoinBaseTx = true := by rw [← hcb]; exact h1
    have hmem : (∃ o ∈ txn.Outputs, o.AssetID ≠ v.systemAssetID) ↔
        ∃ o ∈ txn2.Outputs, o.AssetID ≠ v.systemAssetID := by
      constructor
      · rintro ⟨o, ho, hne⟩
        exact ⟨o, hperm.mem_iff.mp ho, hne⟩
      · rintro ⟨o, ho, hne⟩
        exact ⟨o, hperm.mem_iff.mpr ho, hne⟩
    rw [checkTransactionOutput_coinbase_cases host v txn h1,
      checkTransactionOutput_coinbase_cases host v txn2 h2,
      hperm.length_eq, totalValue_perm _ _ hperm, foundationValue_perm v _ _ hperm]
    simp only [hmem]
  refine ⟨?_, hcoin⟩
  cases h1 : txn.IsCoinBaseTx with
  | true => rw [hcoin h1]
  | false =>
    have h2 : txn2.IsCoinBaseTx = false := by rw [← hcb]; exact h1
    rw [ordinaryBranch_none_iff host v txn h1,
      ordinaryBranch_none_iff host v txn2 h2, hperm.length_eq]
    constructor
    · rintro ⟨hl, hall⟩
      exact ⟨hl, fun o ho => hall o (hperm.mem_iff.mpr ho)⟩
    · rintro ⟨hl, hall⟩
      exact ⟨hl, fun o ho => hall o (hperm.mem_iff.mp ho)⟩

/-- A coinbase paying 700 elsewhere and 300 to the foundation is accepted in
either order of its outputs. -/
theorem checkTransactionOutput_perm_witness :
    checkTransactionOutput amd64Host exampleValidator
        (txOf TransactionType.CoinBase (some (Payload.CoinBase []))
          [outputOf 1 700 0x12, outputOf 1 300 0x21]) =
      checkTransactionOutput amd64Host exampleValidator
        (txOf TransactionType.CoinBase (some (Payload.CoinBase []))
          [outputOf 1 300 0x21, outputOf 1 700 0x12]) :=
  (checkTransactionOutput_perm amd64Host exampleValidator
    (txOf TransactionType.CoinBase (some (Payload.CoinBase []))
      [outputOf 1 700 0x12, outputOf 1 300 0x21])
    (txOf TransactionType.CoinBase (some (Payload.CoinBase []))
      [outputOf 1 300 0x21, outputOf 1 700 0x12])
    (List.Perm.swap _ _ _) rfl).2 rfl

/-- C19: two coinbase transactions whose outputs agree, position by position,
on asset, value and on being addressed to the foundation get the same result
from `checkTransactionOutput`; the result does not depend on the address
prefixes of the host, and it is never InvalidDestination. -/
theorem checkTransactionOutput_coinbase_destination (host : Host) (v : validator)
    (txn txn2 : Transaction) (hcb : txn.IsCoinBaseTx = true)
    (hcb2 : txn2.IsCoinBaseTx = true)
    (hagree : List.Forall₂
      (fun o o2 : Output => o.AssetID = o2.AssetID ∧ o.Value = o2.Value ∧
        (o.ProgramHash = v.foundation ↔ o2.ProgramHash = v.foundation))
      txn.Outputs txn2.Outputs) :
    checkTransactionOutput host v txn = checkTransactionOutput host v txn2 ∧
      (∀ host2 : Host,
        checkTransactionOutput host2 v txn = checkTransactionOutput host v txn) ∧
      checkTransactionOutput host v txn ≠ some errInvalidDestination ∧
      checkTransactionOutput host v txn ≠ some errInvalidAssetID := by
  refine ⟨?_, ?_, ?_, ?_⟩
  · simp only [checkTransactionOutput, hcb, hcb2, if_true, hagree.length_eq,
      coinbaseOutputs_congr v _ _ hagree 0 0]
  · intro host2
    simp only [checkTransactionOutput, hcb, if_true]
  · rw [checkTransactionOutput_coinbase_cases host v txn hcb]
    split_ifs <;> decide
  · rw [checkTransactionOutput_coinbase_cases host v txn hcb]
    split_ifs <;> decide

/-- A coinbase whose second output goes to an address with an unrecognized
first byte gets the same result as one paying a recognized address, and is
accepted. -/
theorem checkTransactionOutput_coinbase_destination_witness :
    checkTransactionOutput amd64Host exampleValidator
        (txOf TransactionType.CoinBase (some (Payload.CoinBase []))
          [outputOf 1 300 0x21, outputOf 1 700 0xFF]) =
      checkTransactionOutput amd64Host exampleValidator
        (txOf TransactionType.CoinBase (some (Payload.CoinBase []))
          [outputOf 1 300 0x21, outputOf 1 700 0x12]) :=
  (checkTransactionOutput_coinbase_destination amd64Host exampleValidator
    (txOf TransactionType.CoinBase (some (Payload.CoinBase []))
      [outputOf 1 300 0x21, outputOf 1 700 0xFF])
    (txOf TransactionType.CoinBase (some (Payload.CoinBase []))
      [outputOf 1 300 0x21, outputOf 1 700 0x12])
    rfl rfl
    (List.Forall₂.cons ⟨rfl, rfl, Iff.rfl⟩
      (List.Forall₂.cons ⟨rfl, rfl, by decide⟩ List.Forall₂.nil))).1

end Mempool
